import Mathlib

/-!
Verification of the funfunzmc query/relation engine.

This file gives a shallow embedding of the table-operations module
(`TableController`) and the shared query-utilities module of the repository,
together with theorems settling the specification claims about them.

JavaScript runtime values are modelled by the inductive type `JValue`;
JavaScript objects (including result rows) are insertion-ordered association
lists manipulated through `objGet`/`objSet`, which mirror property read and
property assignment.  A Knex query builder is modelled as the list of
where-clauses that have been attached to it, plus its offset/limit state;
each clause constructor corresponds to one builder method called by the
source.  Fallible code returns `Except QueryError _`, where `QueryError`
distinguishes the typed `HttpException` of the source from untyped
JavaScript runtime `TypeError`s.
-/

/-- A JavaScript runtime value, as far as the engine manipulates them. -/
inductive JValue where
  | undef
  | null
  | str (s : String)
  | num (n : Int)
  | arr (elems : List JValue)
  | obj (fields : List (String × JValue))

mutual

/-- Structural (strict) equality on `JValue`. -/
def beqJ : JValue → JValue → Bool
  | .undef, .undef => true
  | .null, .null => true
  | .str a, .str b => a == b
  | .num a, .num b => a == b
  | .arr a, .arr b => beqJList a b
  | .obj a, .obj b => beqJFields a b
  | _, _ => false

/-- Elementwise equality of `JValue` lists. -/
def beqJList : List JValue → List JValue → Bool
  | [], [] => true
  | a :: as, b :: bs => beqJ a b && beqJList as bs
  | _, _ => false

/-- Elementwise equality of `JValue` field lists. -/
def beqJFields : List (String × JValue) → List (String × JValue) → Bool
  | [], [] => true
  | (k1, v1) :: as, (k2, v2) :: bs => k1 == k2 && beqJ v1 v2 && beqJFields as bs
  | _, _ => false

end

mutual

theorem beqJ_eq : ∀ a b, beqJ a b = true ↔ a = b
  | .undef, b => by cases b <;> simp [beqJ]
  | .null, b => by cases b <;> simp [beqJ]
  | .str s, b => by cases b <;> simp [beqJ]
  | .num n, b => by cases b <;> simp [beqJ]
  | .arr a, b => by cases b <;> simp [beqJ, beqJList_eq a]
  | .obj a, b => by cases b <;> simp [beqJ, beqJFields_eq a]
termination_by a b => sizeOf a

theorem beqJList_eq : ∀ as bs, beqJList as bs = true ↔ as = bs
  | [], bs => by cases bs <;> simp [beqJList]
  | a :: as, bs => by cases bs <;> simp [beqJList, beqJ_eq a, beqJList_eq as]
termination_by as bs => sizeOf as

theorem beqJFields_eq : ∀ as bs, beqJFields as bs = true ↔ as = bs
  | [], bs => by cases bs <;> simp [beqJFields]
  | (k1, v1) :: as, bs => by
      cases bs with
      | nil => simp [beqJFields]
      | cons b bs =>
          cases b
          simp [beqJFields, beqJ_eq v1, beqJFields_eq as, and_assoc]
termination_by as bs => sizeOf as

end

instance : DecidableEq JValue := fun a b => decidable_of_iff _ (beqJ_eq a b)

/-- A JavaScript object (or database row): insertion-ordered key/value list. -/
abbrev Row := List (String × JValue)

/-- Property read: first binding of a key, `none` when the key is absent. -/
def objGet {α : Type} : List (String × α) → String → Option α
  | [], _ => none
  | (k1, v1) :: rest, k => if k1 = k then some v1 else objGet rest k

/-- Property assignment: replaces the binding in place, or appends a new one. -/
def objSet {α : Type} : List (String × α) → String → α → List (String × α)
  | [], k, v => [(k, v)]
  | (k1, v1) :: rest, k, v =>
      if k1 = k then (k1, v) :: rest else (k1, v1) :: objSet rest k v

/-- Reading a property of a row; an absent property reads as `undefined`. -/
def getVal (row : Row) (k : String) : JValue :=
  (objGet row k).getD JValue.undef

theorem objGet_objSet_self {α : Type} (l : List (String × α)) (k : String) (v : α) :
    objGet (objSet l k v) k = some v := by
  induction l with
  | nil => simp [objGet, objSet]
  | cons p rest ih =>
      obtain ⟨k1, v1⟩ := p
      by_cases h : k1 = k <;> simp [objGet, objSet, h, ih]

theorem objGet_objSet_ne {α : Type} (l : List (String × α)) (k k' : String) (v : α)
    (h : k ≠ k') : objGet (objSet l k v) k' = objGet l k' := by
  induction l with
  | nil => simp [objGet, objSet, h]
  | cons p rest ih =>
      obtain ⟨k1, v1⟩ := p
      by_cases h1 : k1 = k
      · subst h1
        simp [objGet, objSet, h]
      · simp only [objSet, if_neg h1]
        by_cases h2 : k1 = k' <;> simp [objGet, h2, ih]

theorem objSet_absent {α : Type} (l : List (String × α)) (k : String) (v : α)
    (h : ∀ p ∈ l, p.1 ≠ k) : objSet l k v = l ++ [(k, v)] := by
  induction l with
  | nil => simp [objSet]
  | cons p rest ih =>
      obtain ⟨k1, v1⟩ := p
      have hk1 : k1 ≠ k := h (k1, v1) (by simp)
      simp only [objSet, if_neg hk1, List.cons_append, List.cons.injEq, true_and]
      exact ih (fun p hp => h p (by simp [hp]))

theorem getVal_objSet_self (row : Row) (k : String) (v : JValue) :
    getVal (objSet row k v) k = v := by
  simp [getVal, objGet_objSet_self]

theorem getVal_objSet_ne (row : Row) (k k' : String) (v : JValue) (h : k ≠ k') :
    getVal (objSet row k v) k' = getVal row k' := by
  simp [getVal, objGet_objSet_ne _ _ _ _ h]

mutual

/-- JavaScript string coercion of a value (`String(v)`). -/
def jsToString : JValue → String
  | .undef => "undefined"
  | .null => "null"
  | .str s => s
  | .num n => toString n
  | .arr xs => jsJoin xs
  | .obj _ => "[object Object]"

/-- Array-to-string: elements joined by commas, nullish elements empty. -/
def jsJoin : List JValue → String
  | [] => ""
  | [x] => jsElem x
  | x :: xs => jsElem x ++ "," ++ jsJoin xs

/-- Element conversion inside a join: nullish prints empty, the rest as
`jsToString`. -/
def jsElem : JValue → String
  | .undef => ""
  | .null => ""
  | .str s => s
  | .num n => toString n
  | .arr xs => jsJoin xs
  | .obj _ => "[object Object]"

end

/-- Bool test: does the character list start with the second list. -/
def charsStartWith : List Char → List Char → Bool
  | _, [] => true
  | [], _ :: _ => false
  | a :: as, b :: bs => a == b && charsStartWith as bs

/-- Bool test: does the first character list contain the second as a
contiguous run (the JavaScript `indexOf(sub) >= 0` / SQL `LIKE` core). -/
def charsContain : List Char → List Char → Bool
  | [], sub => sub.isEmpty
  | a :: as, sub => charsStartWith (a :: as) sub || charsContain as sub

/-- JavaScript `s.indexOf(sub) >= 0` on strings. -/
def strIncludes (s sub : String) : Bool := charsContain s.data sub.data

theorem charsStartWith_self : ∀ l : List Char, charsStartWith l l = true
  | [] => by simp [charsStartWith]
  | a :: as => by simp [charsStartWith, charsStartWith_self as]

theorem strIncludes_self (s : String) : strIncludes s s = true := by
  unfold strIncludes
  cases h : s.data with
  | nil => simp [charsContain]
  | cons a as => simp [charsContain, charsStartWith_self]

/-- A JavaScript number as produced by `parseInt`: an integer or `NaN`. -/
inductive JSNum where
  | nan
  | val (n : Int)
  deriving DecidableEq

/-- The JavaScript comparison `x > 0` (`false` on `NaN`). -/
def jsGtZero : JSNum → Bool
  | .nan => false
  | .val n => decide (0 < n)

/-- JavaScript multiplication (`NaN` propagates). -/
def jsMul : JSNum → JSNum → JSNum
  | .val a, .val b => .val (a * b)
  | _, _ => .nan

/-- Numeric value of a list of decimal digits. -/
def digitsVal (cs : List Char) : Nat :=
  cs.foldl (fun a c => a * 10 + (c.toNat - 48)) 0

/-- ASCII whitespace, as skipped by `parseInt`. -/
def isSpaceChar (c : Char) : Bool :=
  c == ' ' || c == '\t' || c == '\n' || c == '\r'

/-- JavaScript `parseInt(s, 10)`: skip whitespace, optional sign, read the
leading digit run, `NaN` when there is none. -/
def parseIntJS (s : String) : JSNum :=
  let cs := s.data.dropWhile isSpaceChar
  match cs with
  | '-' :: r =>
      let digits := r.takeWhile (fun c => c.isDigit)
      if digits.isEmpty then JSNum.nan else JSNum.val (-(digitsVal digits : Int))
  | '+' :: r =>
      let digits := r.takeWhile (fun c => c.isDigit)
      if digits.isEmpty then JSNum.nan else JSNum.val (digitsVal digits : Int)
  | r =>
      let digits := r.takeWhile (fun c => c.isDigit)
      if digits.isEmpty then JSNum.nan else JSNum.val (digitsVal digits : Int)

/-- One where-clause attached to a Knex query builder; each constructor is
one builder method used by the source (`whereNull`, `whereIn`,
`where(object)`, `where(col, 'like', pat)` and their `andWhere` forms). -/
inductive Clause where
  | whereNull (col : String)
  | whereIn (col : String) (vals : List JValue)
  | whereEq (col : String) (v : JValue)
  | whereLike (col : String) (pat : String)
  | andWhereNull (col : String)
  | andWhereEq (col : String) (v : JValue)
  | andWhereLike (col : String) (pat : String)
  deriving DecidableEq

/-- A Knex query builder: its attached where-clauses (every attached clause
is an AND-conjunct in Knex) plus offset/limit state. -/
structure Query where
  clauses : List Clause
  off : Option JSNum
  lim : Option JSNum
  deriving DecidableEq

/-- Attaching one more clause to a builder. -/
def Query.add (q : Query) (c : Clause) : Query :=
  { q with clauses := q.clauses ++ [c] }

def emptyQuery : Query := { clauses := [], off := none, lim := none }

/-- Nullish test (SQL NULL; an absent row property also reads as NULL). -/
def isNullish : JValue → Bool
  | .null => true
  | .undef => true
  | _ => false

/-- The pattern `'%' + value + '%'` built by the source for LIKE matches. -/
def likePattern (s : String) : String := "%" ++ s ++ "%"

/-- The text between the two `%` wildcards of such a pattern. -/
def likeInner (pat : String) : List Char := (pat.data.drop 1).dropLast

theorem likeInner_likePattern (s : String) : likeInner (likePattern s) = s.data := by
  simp [likeInner, likePattern, String.data_append]

/-- Truth of one clause on one row, under SQL three-valued logic collapsed
to `false` for NULL comparisons; `LIKE '%x%'` is substring containment of
the string coercion of the cell. -/
def evalClause (row : Row) : Clause → Bool
  | .whereNull col => isNullish (getVal row col)
  | .andWhereNull col => isNullish (getVal row col)
  | .whereIn col vals => !isNullish (getVal row col) && vals.any (fun v => getVal row col == v)
  | .whereEq col v => !isNullish (getVal row col) && getVal row col == v
  | .andWhereEq col v => !isNullish (getVal row col) && getVal row col == v
  | .whereLike col pat =>
      !isNullish (getVal row col) && charsContain (jsToString (getVal row col)).data (likeInner pat)
  | .andWhereLike col pat =>
      !isNullish (getVal row col) && charsContain (jsToString (getVal row col)).data (likeInner pat)

/-- A query's where-clauses evaluated on a row: conjunction of all clauses. -/
def evalQuery (q : Query) (row : Row) : Bool := q.clauses.all (evalClause row)

/-- The typed `HttpException(status, message)` of the source, or an untyped
JavaScript runtime `TypeError`. -/
inductive QueryError where
  | httpException (status : Nat) (message : String)
  | jsTypeError (message : String)
  deriving DecidableEq

/-- A role attached to the session user. -/
structure IUserRole where
  id : Int
  name : String
  deriving DecidableEq

/-- The express session user: a list of roles. -/
structure IUser where
  roles : List IUserRole
  deriving DecidableEq

/-- Backoffice page targets for column visibility. -/
inductive Target where
  | main
  | detail
  deriving DecidableEq

/-- Per-target visibility flags of a column. -/
structure Visibility where
  main : Bool
  detail : Bool
  deriving DecidableEq

def visibleFor (v : Visibility) : Target → Bool
  | .main => v.main
  | .detail => v.detail

/-- A column's relation descriptor: related table, key column, display column. -/
structure IColumnRelation where
  table : String
  key : String
  display : String
  deriving DecidableEq

/-- A column configuration. -/
structure IColumnInfo where
  name : String
  type : String
  visible : Visibility
  relation : Option IColumnRelation
  deriving DecidableEq

/-- The declared primary key: one column name or an ordered list of names. -/
inductive PKDef where
  | single (name : String)
  | many (names : List String)
  deriving DecidableEq

structure IChipColumn where
  name : String
  deriving DecidableEq

/-- A chip: a virtual frontend column spanning several real columns. -/
structure IChip where
  columns : List IChipColumn
  deriving DecidableEq

/-- A declared many-to-many relation through a junction table. -/
structure IManyToManyRelation where
  relationTable : String
  foreignKey : String
  localId : String
  remoteTable : String
  remoteId : String
  remoteForeignKey : String
  deriving DecidableEq

structure ITableRelations where
  manyToMany : Option (List IManyToManyRelation)
  deriving DecidableEq

/-- A table configuration (the parts of `ITableInfo` the claims exercise). -/
structure ITableInfo where
  name : String
  columns : List IColumnInfo
  pk : PKDef
  chips : Option (List IChip)
  relations : Option ITableRelations
  deriving DecidableEq

/-- The database: every table name maps to its list of rows. -/
def DataBase := String → List Row

/-- The default user substituted by `hasAuthorization` when the request
carries no session user. -/
def defaultUnauthenticatedUser : IUser :=
  { roles := [{ id := 0, name := "unauthenticated" }] }

/-- Embeds `hasAuthorization` of the utilities module: grants access when
the role list is absent or empty, contains the sentinel `"all"`, or shares
a role name with the user's roles; a missing user defaults to the
unauthenticated singleton. -/
def hasAuthorization (roles : Option (List String)) (user : Option IUser) : Bool :=
  let u := user.getD defaultUnauthenticatedUser
  match roles with
  | none => true
  | some rs =>
      if rs.length = 0 then true
      else
        (rs.find? (fun role =>
            if role = "all" then true
            else (u.roles.find? (fun userRole => userRole.name = role)).isSome)).isSome

/-- The test `TABLE_CONFIG.pk.indexOf(column.name) >= 0` of
`filterVisibleTableColumns`: array membership for a composite key, substring
containment for a string key (the JavaScript `String.indexOf` overload). -/
def pkIndexOfNonNeg (pk : PKDef) (name : String) : Bool :=
  match pk with
  | .single s => strIncludes s name
  | .many l => l.contains name

/-- Whether a column name is one of the declared primary-key columns. -/
def pkDeclaresB (pk : PKDef) (k : String) : Bool :=
  match pk with
  | .single s => s == k
  | .many l => l.contains k

/-- Embeds `filterVisibleTableColumns`: keeps a column when it is visible
for the target page, named by the primary key, or referenced by a chip on
the main page; returns the kept column names. -/
def filterVisibleTableColumns (table : ITableInfo) (target : Target) : List String :=
  let toKeep : List (String × Bool) :=
    match table.chips with
    | some chips =>
        if target = Target.main then
          chips.foldl
            (fun acc chip =>
              chip.columns.foldl (fun acc2 c => objSet acc2 c.name true) acc)
            []
        else []
    | none => []
  (table.columns.filter (fun column =>
      visibleFor column.visible target || pkIndexOfNonNeg table.pk column.name ||
        (objGet toKeep column.name).getD false)).map
    (fun column => column.name)

/-- A `req.query` pagination parameter: absent, a string, or a number. -/
inductive QueryParam where
  | missing
  | str (s : String)
  | num (n : Int)
  deriving DecidableEq

/-- JavaScript truthiness of such a parameter (`undefined`, `""` and `0`
are falsy). -/
def truthyParam : QueryParam → Bool
  | .missing => false
  | .str s => s != ""
  | .num n => n != 0

/-- Embeds `TableController.paginate`: falsy page/limit fall back to the
defaults 0 and 10, string inputs go through `parseInt`, and offset/limit are
applied only when the resolved limit is positive. -/
def paginate (query : Query) (page limit : QueryParam) : Query :=
  let LIMIT : JSNum := JSNum.val 10
  let PAGE_NUMBER : JSNum := JSNum.val 0
  let PAGE_NUMBER :=
    if truthyParam page then
      match page with
      | QueryParam.str s => parseIntJS s
      | QueryParam.num n => JSNum.val n
      | QueryParam.missing => PAGE_NUMBER
    else PAGE_NUMBER
  let LIMIT :=
    if truthyParam limit then
      match limit with
      | QueryParam.str s => parseIntJS s
      | QueryParam.num n => JSNum.val n
      | QueryParam.missing => LIMIT
    else LIMIT
  if jsGtZero LIMIT then
    { query with off := some (jsMul PAGE_NUMBER LIMIT), lim := some LIMIT }
  else query


/-- C1: `hasAuthorization(R, C)` returns true iff the required-role list is
absent or empty, contains the sentinel `"all"`, or some required role name
equals the name of one of the caller's roles; an undefined caller is
treated as carrying exactly the single role `"unauthenticated"`.  The
function is a total Lean function, hence never throws. -/
theorem hasAuthorization_spec (R : Option (List String)) (user : Option IUser) :
    (hasAuthorization R user = true ↔
      (R.getD [] = [] ∨ "all" ∈ R.getD [] ∨
        ∃ r ∈ R.getD [], ∃ ur ∈ (user.getD defaultUnauthenticatedUser).roles, ur.name = r)) ∧
    hasAuthorization R none =
      hasAuthorization R (some { roles := [{ id := 0, name := "unauthenticated" }] }) := by
  refine ⟨?_, rfl⟩
  cases R with
  | none => simp [hasAuthorization]
  | some rs =>
      cases rs with
      | nil => simp [hasAuthorization]
      | cons a as =>
          simp only [hasAuthorization, Option.getD_some, List.length_cons]
          rw [if_neg (by omega)]
          rw [List.find?_isSome]
          constructor
          · rintro ⟨x, hx, hpx⟩
            by_cases hall : x = "all"
            · subst hall
              exact Or.inr (Or.inl hx)
            · rw [if_neg hall] at hpx
              obtain ⟨ur, hur, hname⟩ := List.find?_isSome.mp hpx
              refine Or.inr (Or.inr ⟨x, hx, ur, hur, by simpa using hname⟩)
          · rintro (h | h | ⟨r, hr, ur, hur, hname⟩)
            · simp at h
            · exact ⟨"all", h, by simp⟩
            · refine ⟨r, hr, ?_⟩
              by_cases hall : r = "all"
              · simp [hall]
              · rw [if_neg hall]
                exact List.find?_isSome.mpr ⟨ur, hur, by simp [hname]⟩

/-- C10: for every table configuration and both targets, the column list
returned by `filterVisibleTableColumns` contains every declared primary-key
column of the table, regardless of its visibility flags. -/
theorem filterVisibleTableColumns_keeps_pk (table : ITableInfo) (target : Target)
    (c : IColumnInfo) (h1 : c ∈ table.columns) (h2 : pkDeclaresB table.pk c.name = true) :
    c.name ∈ filterVisibleTableColumns table target := by
  have hpk : pkIndexOfNonNeg table.pk c.name = true := by
    cases hp : table.pk with
    | single s =>
        rw [hp] at h2
        have hs : s = c.name := by simpa [pkDeclaresB] using h2
        rw [pkIndexOfNonNeg, hs]
        exact strIncludes_self c.name
    | many l =>
        rw [hp] at h2
        simpa [pkIndexOfNonNeg, pkDeclaresB] using h2
  unfold filterVisibleTableColumns
  apply List.mem_map_of_mem
  refine List.mem_filter.mpr ⟨h1, ?_⟩
  simp [hpk]

/-- A table whose only column is the primary key, invisible on both pages. -/
def tableC10 : ITableInfo :=
  { name := "units",
    columns := [{ name := "id", type := "int(11)",
                  visible := { main := false, detail := false }, relation := none }],
    pk := PKDef.single "id",
    chips := none,
    relations := none }

/-- Witness for C10: the invisible primary-key column is kept on both
targets. -/
theorem filterVisibleTableColumns_keeps_pk_witness :
    "id" ∈ filterVisibleTableColumns tableC10 Target.main ∧
    "id" ∈ filterVisibleTableColumns tableC10 Target.detail := by
  constructor
  · exact filterVisibleTableColumns_keeps_pk tableC10 Target.main
      { name := "id", type := "int(11)",
        visible := { main := false, detail := false }, relation := none }
      (by simp [tableC10]) (by decide)
  · exact filterVisibleTableColumns_keeps_pk tableC10 Target.detail
      { name := "id", type := "int(11)",
        visible := { main := false, detail := false }, relation := none }
      (by simp [tableC10]) (by decide)

/-- C4 counterexample: with number-typed `page = 0` and `limit = 0` the
code does NOT skip pagination; the number 0 is falsy, so the limit falls
back to the default 10 and an offset of 0 with limit 10 is applied,
contradicting the claim that no limit/offset is applied for number-typed
inputs. -/
theorem paginate_num_zero_counterexample :
    paginate emptyQuery (QueryParam.num 0) (QueryParam.num 0) =
      { clauses := [], off := some (JSNum.val 0), lim := some (JSNum.val 10) } := by
  rfl

/-- C4 (amended): `paginate` defaults page to 0 and limit to 10 when the
parameter is missing or falsy; when the resolved limit is positive it
applies offset = page * limit and that limit; a resolved limit of 0 or
below (reachable only through string input such as `"0"` or a negative
value) skips pagination entirely; but a NUMBER-typed limit 0 is falsy and
is treated as unspecified, so the default limit 10 is applied instead. -/
theorem paginate_spec (q : Query) :
    (paginate q (QueryParam.num 2) (QueryParam.num 10) =
        { q with off := some (JSNum.val 20), lim := some (JSNum.val 10) }) ∧
    (paginate q QueryParam.missing QueryParam.missing =
        { q with off := some (JSNum.val 0), lim := some (JSNum.val 10) }) ∧
    (paginate q (QueryParam.str "0") (QueryParam.str "0") = q) ∧
    (paginate q (QueryParam.num 0) (QueryParam.str "0") = q) ∧
    (paginate q (QueryParam.num 0) (QueryParam.num 0) =
        { q with off := some (JSNum.val 0), lim := some (JSNum.val 10) }) ∧
    (∀ n : Int, n < 0 → paginate q (QueryParam.num 0) (QueryParam.num n) = q) ∧
    (∀ p : QueryParam, ∀ n : Int, 0 < n → truthyParam p = false →
        paginate q p (QueryParam.num n) =
          { q with off := some (JSNum.val 0), lim := some (JSNum.val n) }) ∧
    (∀ pn ln : Int, 0 < ln → pn ≠ 0 →
        paginate q (QueryParam.num pn) (QueryParam.num ln) =
          { q with off := some (JSNum.val (pn * ln)), lim := some (JSNum.val ln) }) := by
  refine ⟨rfl, rfl, rfl, rfl, rfl, ?_, ?_, ?_⟩
  · intro n hn
    have h1 : (n != 0) = true := by simp; omega
    have h2 : jsGtZero (JSNum.val n) = false := by simp [jsGtZero]; omega
    simp [paginate, truthyParam, h1, h2]
  · intro p n hn hp
    have h1 : truthyParam (QueryParam.num n) = true := by simp [truthyParam]; omega
    simp [paginate, h1, hp, jsGtZero, hn, jsMul]
  · intro pn ln hln hpn
    have h1 : (ln != 0) = true := by simp; omega
    have h2 : (pn != 0) = true := by simp [hpn]
    simp [paginate, truthyParam, h1, h2, jsGtZero, hln, jsMul]

/-- Witness for the amended C4 statement at concrete inputs. -/
theorem paginate_spec_witness :
    paginate emptyQuery (QueryParam.num 0) (QueryParam.num (-5)) = emptyQuery ∧
    paginate emptyQuery (QueryParam.num 3) (QueryParam.num 7) =
      { clauses := [], off := some (JSNum.val 21), lim := some (JSNum.val 7) } := by
  constructor
  · exact (paginate_spec emptyQuery).2.2.2.2.2.1 (-5) (by norm_num)
  · have h := (paginate_spec emptyQuery).2.2.2.2.2.2.2 3 7 (by norm_num) (by norm_num)
    simpa [emptyQuery] using h

/-- C8 counterexample: a non-numeric pagination string is never rejected.
A non-numeric limit silently skips pagination (the query is returned
unchanged, with no error of any kind), and a non-numeric page with a
positive limit silently applies a NaN offset; there is no
`InvalidPagination` rejection anywhere (`paginate` cannot fail: it returns
a plain `Query`). -/
theorem paginate_nonnumeric_counterexample :
    paginate emptyQuery (QueryParam.num 1) (QueryParam.str "abc") = emptyQuery ∧
    paginate emptyQuery (QueryParam.str "abc") (QueryParam.num 10) =
      { clauses := [], off := some JSNum.nan, lim := some (JSNum.val 10) } := by
  exact ⟨rfl, rfl⟩

/-- C8 (amended): `paginate` performs no input validation and never
rejects.  A non-empty non-numeric string parses to NaN; as limit this
fails the `LIMIT > 0` test so pagination is silently skipped, and as page
with a positive limit it produces a NaN offset on the query. -/
theorem paginate_nonnumeric_spec (q : Query) (s : String)
    (h1 : parseIntJS s = JSNum.nan) (h2 : s ≠ "") :
    (∀ p : QueryParam, paginate q p (QueryParam.str s) = q) ∧
    (∀ n : Int, 0 < n →
        paginate q (QueryParam.str s) (QueryParam.num n) =
          { q with off := some JSNum.nan, lim := some (JSNum.val n) }) := by
  have hs : (s != "") = true := by simp [h2]
  constructor
  · intro p
    simp [paginate, truthyParam, hs, h1, jsGtZero]
  · intro n hn
    have hne : (n != 0) = true := by simp; omega
    simp [paginate, truthyParam, hs, h1, hne, jsGtZero, hn, jsMul]

/-- Witness for the amended C8 statement at concrete inputs. -/
theorem paginate_nonnumeric_spec_witness :
    paginate emptyQuery QueryParam.missing (QueryParam.str "abc") = emptyQuery ∧
    paginate emptyQuery (QueryParam.str "abc") (QueryParam.num 3) =
      { clauses := [], off := some JSNum.nan, lim := some (JSNum.val 3) } := by
  constructor
  · exact (paginate_nonnumeric_spec emptyQuery "abc" (by rfl) (by decide)).1 QueryParam.missing
  · exact (paginate_nonnumeric_spec emptyQuery "abc" (by rfl) (by decide)).2 3 (by norm_num)

/-- Embeds the before-hook filter merge step of
`TableController.getTableData` (the `if (hookResult) if (hookResult.filter)`
block): for every entry of the hook result's filter map, an array value is
attached to the query with `whereIn`, any other value is skipped. -/
def applyHookFilter (QUERY : Query) (hookFilter : Option (List (String × JValue))) : Query :=
  match hookFilter with
  | none => QUERY
  | some fs =>
      fs.foldl
        (fun q p =>
          match p.2 with
          | JValue.arr xs => q.add (Clause.whereIn p.1 xs)
          | _ => q)
        QUERY

/-- The clause a hook filter entry contributes: an IN predicate for a
list-valued entry, nothing for any other value. -/
def hookClauseOf (p : String × JValue) : Option Clause :=
  match p.2 with
  | JValue.arr xs => some (Clause.whereIn p.1 xs)
  | _ => none

theorem applyHookFilter_foldl (fs : List (String × JValue)) (q : Query) :
    applyHookFilter q (some fs) =
      { q with clauses := q.clauses ++ fs.filterMap hookClauseOf } := by
  induction fs generalizing q with
  | nil => simp [applyHookFilter]
  | cons p fs ih =>
      have step : applyHookFilter q (some (p :: fs)) =
          applyHookFilter
            (match p.2 with
             | JValue.arr xs => q.add (Clause.whereIn p.1 xs)
             | _ => q)
            (some fs) := by
        simp [applyHookFilter]
      rw [step]
      cases hp : p.2 <;>
        simp [ih, hookClauseOf, hp, Query.add, List.append_assoc]

/-- C7: when a before-hook result carries a filter map, exactly the
list-valued entries are merged into the final query, each as an IN
predicate on its column, in order; every scalar (or null) entry is
silently ignored and contributes nothing. -/
theorem applyHookFilter_spec (q : Query) (fs : List (String × JValue)) :
    (applyHookFilter q (some fs) =
      { q with clauses := q.clauses ++ fs.filterMap hookClauseOf }) ∧
    (∀ col v, (∀ xs, v ≠ JValue.arr xs) →
        applyHookFilter q (some [(col, v)]) = q) ∧
    (∀ col xs, applyHookFilter q (some [(col, JValue.arr xs)]) =
        { q with clauses := q.clauses ++ [Clause.whereIn col xs] }) := by
  refine ⟨applyHookFilter_foldl fs q, ?_, ?_⟩
  · intro col v hv
    rw [applyHookFilter_foldl]
    cases v <;> simp [hookClauseOf]
    exact absurd rfl (hv _)
  · intro col xs
    rw [applyHookFilter_foldl]
    simp [hookClauseOf]

/-- Witness for C7: a list-valued hook filter entry adds `status IN
('active','pending')`; a scalar hook filter entry is ignored. -/
theorem applyHookFilter_spec_witness :
    applyHookFilter emptyQuery
        (some [("status", JValue.arr [JValue.str "active", JValue.str "pending"])]) =
      { clauses := [Clause.whereIn "status" [JValue.str "active", JValue.str "pending"]],
        off := none, lim := none } ∧
    applyHookFilter emptyQuery (some [("status", JValue.str "active")]) = emptyQuery := by
  constructor
  · exact (applyHookFilter_spec emptyQuery
      [("status", JValue.arr [JValue.str "active", JValue.str "pending"])]).2.2
      "status" [JValue.str "active", JValue.str "pending"]
  · exact (applyHookFilter_spec emptyQuery [("status", JValue.str "active")]).2.1
      "status" (JValue.str "active") (fun xs => by simp)

/-- Embeds `getColumnsByName`: the columns list keyed by column name. -/
def getColumnsByName (TABLE_CONFIG : ITableInfo) : List (String × IColumnInfo) :=
  TABLE_CONFIG.columns.foldl (fun m column => objSet m column.name column) []

/-- The storage types `applyQueryFilters` treats as numeric/temporal. -/
def isNumericDateType (t : String) : Bool :=
  t == "int(11)" || t == "smallint(5)" || t == "datetime"

/-- The clause one filter entry attaches in `applyQueryFilters`, written as
the source's nested conditionals: numeric/temporal columns get
NULL/IN/equality, every other column gets NULL/IN/`LIKE '%value%'`; the
first entry uses the plain builder call, later entries the `andWhere`
form (Knex's `whereIn` has no `and` variant and is used for both). -/
def goClause (t : String) (idx : Nat) (key : String) (v : JValue) : Clause :=
  if isNumericDateType t then
    if idx = 0 then
      match v with
      | JValue.null => Clause.whereNull key
      | JValue.arr xs => Clause.whereIn key xs
      | _ => Clause.whereEq key v
    else
      match v with
      | JValue.null => Clause.andWhereNull key
      | JValue.arr xs => Clause.whereIn key xs
      | _ => Clause.andWhereEq key v
  else
    if idx = 0 then
      match v with
      | JValue.null => Clause.whereNull key
      | JValue.arr xs => Clause.whereIn key xs
      | _ => Clause.whereLike key (likePattern (jsToString v))
    else
      match v with
      | JValue.null => Clause.andWhereNull key
      | JValue.arr xs => Clause.whereIn key xs
      | _ => Clause.andWhereLike key (likePattern (jsToString v))

/-- The `Object.keys(FILTERS).forEach` loop of `applyQueryFilters`:
resolves each key in the columns-by-name map (an unknown key makes the
JavaScript code read `.type` of `undefined` and throw a `TypeError`) and
attaches the entry's clause. -/
def applyQueryFiltersGo (columnsByName : List (String × IColumnInfo)) (QUERY : Query)
    (idx : Nat) : List (String × JValue) → Except QueryError Query
  | [] => Except.ok QUERY
  | (key, v) :: rest =>
      match objGet columnsByName key with
      | none => Except.error (QueryError.jsTypeError "Cannot read property type of undefined")
      | some col =>
          applyQueryFiltersGo columnsByName (QUERY.add (goClause col.type idx key v))
            (idx + 1) rest

/-- Embeds `applyQueryFilters` (the filter map is passed already parsed;
the JSON-string branch of the source is not modelled). -/
def applyQueryFilters (QUERY : Query) (filters : List (String × JValue))
    (TABLE_CONFIG : ITableInfo) : Except QueryError Query :=
  applyQueryFiltersGo (getColumnsByName TABLE_CONFIG) QUERY 0 filters

/-- The storage type the table declares for a key (empty for unknown keys;
only used under a hypothesis that the key is declared). -/
def columnTypeOf (T : ITableInfo) (key : String) : String :=
  match objGet (getColumnsByName T) key with
  | some col => col.type
  | none => ""

/-- Spec-side clause description, following the specification's wording:
per entry, IS NULL for null, IN for a list, else equality for
numeric/temporal columns and a `%value%` pattern otherwise; the first
entry attaches plainly, later entries as AND-conjuncts. -/
def specFilterClause (T : ITableInfo) (idx : Nat) (p : String × JValue) : Clause :=
  match p.2 with
  | JValue.null => if idx = 0 then Clause.whereNull p.1 else Clause.andWhereNull p.1
  | JValue.arr xs => Clause.whereIn p.1 xs
  | v =>
      if isNumericDateType (columnTypeOf T p.1) then
        if idx = 0 then Clause.whereEq p.1 v else Clause.andWhereEq p.1 v
      else
        if idx = 0 then Clause.whereLike p.1 (likePattern (jsToString v))
        else Clause.andWhereLike p.1 (likePattern (jsToString v))

/-- Spec-side list of clauses emitted for a filter map, in mapping order. -/
def emittedFilterClauses (T : ITableInfo) : Nat → List (String × JValue) → List Clause
  | _, [] => []
  | idx, p :: rest => specFilterClause T idx p :: emittedFilterClauses T (idx + 1) rest

/-- Spec-side per-entry truth value on a row: reference semantics of one
filter entry (IS NULL / IN / equality / substring by column type). -/
def specFilterPred (T : ITableInfo) (row : Row) (p : String × JValue) : Bool :=
  let cell := getVal row p.1
  match p.2 with
  | JValue.null => isNullish cell
  | JValue.arr xs => !isNullish cell && xs.any (fun v => cell == v)
  | v =>
      if isNumericDateType (columnTypeOf T p.1) then
        !isNullish cell && cell == v
      else
        !isNullish cell && charsContain (jsToString cell).data (jsToString v).data

theorem goClause_eq_spec (T : ITableInfo) (key : String) (col : IColumnInfo)
    (hcol : objGet (getColumnsByName T) key = some col) (idx : Nat) (v : JValue) :
    goClause col.type idx key v = specFilterClause T idx (key, v) := by
  simp only [specFilterClause, columnTypeOf, hcol]
  cases v <;> by_cases hnum : isNumericDateType col.type <;>
    by_cases hidx : idx = 0 <;> simp [goClause, hnum, hidx]

theorem evalClause_specFilterClause (T : ITableInfo) (idx : Nat) (p : String × JValue)
    (row : Row) : evalClause row (specFilterClause T idx p) = specFilterPred T row p := by
  obtain ⟨key, v⟩ := p
  cases v <;> by_cases hnum : isNumericDateType (columnTypeOf T key) <;>
    by_cases hidx : idx = 0 <;>
      simp [specFilterClause, specFilterPred, evalClause, hnum, hidx, likeInner_likePattern]

theorem evalQuery_add (q : Query) (c : Clause) (row : Row) :
    evalQuery (q.add c) row = (evalQuery q row && evalClause row c) := by
  simp [evalQuery, Query.add]

theorem applyQueryFiltersGo_spec (T : ITableInfo) (fs : List (String × JValue)) :
    ∀ (q : Query) (idx : Nat),
      (∀ p ∈ fs, (objGet (getColumnsByName T) p.1).isSome) →
      ∃ q', applyQueryFiltersGo (getColumnsByName T) q idx fs = Except.ok q' ∧
        q'.clauses = q.clauses ++ emittedFilterClauses T idx fs ∧
        q'.off = q.off ∧ q'.lim = q.lim ∧
        ∀ row, evalQuery q' row = (evalQuery q row && fs.all (specFilterPred T row)) := by
  induction fs with
  | nil => intro q idx _; exact ⟨q, rfl, by simp [emittedFilterClauses], rfl, rfl, by simp⟩
  | cons p rest ih =>
      intro q idx h
      obtain ⟨key, v⟩ := p
      obtain ⟨col, hcol⟩ := Option.isSome_iff_exists.mp (h (key, v) (by simp))
      obtain ⟨q', hgo, hcl, hoff, hlim, heval⟩ :=
        ih (q.add (goClause col.type idx key v)) (idx + 1)
          (fun p hp => h p (by simp [hp]))
      refine ⟨q', ?_, ?_, ?_, ?_, ?_⟩
      · simpa [applyQueryFiltersGo, hcol] using hgo
      · rw [hcl, goClause_eq_spec T key col hcol, Query.add]
        simp [emittedFilterClauses]
      · simpa [Query.add] using hoff
      · simpa [Query.add] using hlim
      · intro row
        rw [heval row, evalQuery_add, goClause_eq_spec T key col hcol,
          evalClause_specFilterClause]
        simp [Bool.and_assoc]

theorem objGet_objSet_isSome {α : Type} (m : List (String × α)) (k k' : String) (v : α) :
    (objGet (objSet m k v) k').isSome = ((k = k') ∨ (objGet m k').isSome : Prop) := by
  by_cases h : k = k'
  · subst h
    simp [objGet_objSet_self]
  · simp [objGet_objSet_ne _ _ _ _ h, h]

theorem objGet_getColumnsByName_isSome (T : ITableInfo) (k : String) :
    (objGet (getColumnsByName T) k).isSome ↔ ∃ c ∈ T.columns, c.name = k := by
  unfold getColumnsByName
  suffices h : ∀ (cols : List IColumnInfo) (m0 : List (String × IColumnInfo)),
      (objGet (cols.foldl (fun m column => objSet m column.name column) m0) k).isSome ↔
        ((∃ c ∈ cols, c.name = k) ∨ (objGet m0 k).isSome) by
    rw [h T.columns []]
    simp [objGet]
  intro cols
  induction cols with
  | nil => intro m0; simp
  | cons c cols ih =>
      intro m0
      rw [List.foldl_cons, ih]
      have hs : ((objGet (objSet m0 c.name c) k).isSome : Prop) ↔
          (c.name = k ∨ (objGet m0 k).isSome) := by
        rw [objGet_objSet_isSome]
      rw [hs]
      constructor
      · rintro (⟨c', hc', hn⟩ | h | h)
        · exact Or.inl ⟨c', by simp [hc'], hn⟩
        · exact Or.inl ⟨c, by simp, h⟩
        · exact Or.inr h
      · rintro (⟨c', hc', hn⟩ | h)
        · rcases List.mem_cons.mp hc' with hh | hh
          · subst hh
            exact Or.inr (Or.inl hn)
          · exact Or.inl ⟨c', hh, hn⟩
        · exact Or.inr (Or.inr h)

/-- C2: for a filter map whose keys are all declared columns,
`applyQueryFilters` succeeds and attaches, in mapping order, exactly the
clause the specification describes for each entry — numeric/temporal
columns (int(11), smallint(5), datetime) get IS NULL for null, IN for a
list and equality otherwise; every other column gets IS NULL for null, IN
for a list and a `'%value%'` substring pattern otherwise — the first entry
with a plain `where`, every later entry as an AND-conjunct; semantically
the resulting query evaluates as the original query AND-ed with the
reference truth value of every entry. -/
theorem applyQueryFilters_spec (q : Query) (filters : List (String × JValue))
    (T : ITableInfo) (h : ∀ p ∈ filters, ∃ c ∈ T.columns, c.name = p.1) :
    ∃ q', applyQueryFilters q filters T = Except.ok q' ∧
      q'.clauses = q.clauses ++ emittedFilterClauses T 0 filters ∧
      q'.off = q.off ∧ q'.lim = q.lim ∧
      ∀ row, evalQuery q' row = (evalQuery q row && filters.all (specFilterPred T row)) :=
  applyQueryFiltersGo_spec T filters q 0
    (fun p hp => (objGet_getColumnsByName_isSome T p.1).mpr (h p hp))

/-- A table with a numeric, a text and a datetime column. -/
def tableC2 : ITableInfo :=
  { name := "books",
    columns :=
      [{ name := "a", type := "int(11)",
         visible := { main := true, detail := true }, relation := none },
       { name := "b", type := "varchar(255)",
         visible := { main := true, detail := true }, relation := none },
       { name := "c", type := "datetime",
         visible := { main := true, detail := true }, relation := none }],
    pk := PKDef.single "a",
    chips := none,
    relations := none }

/-- Witness for C2: a numeric equality, a text substring pattern and a
null check, chained in mapping order. -/
theorem applyQueryFilters_spec_witness :
    ∃ q', applyQueryFilters emptyQuery
        [("a", JValue.num 5), ("b", JValue.str "x"), ("c", JValue.null)] tableC2 =
        Except.ok q' ∧
      q'.clauses = [Clause.whereEq "a" (JValue.num 5),
        Clause.andWhereLike "b" "%x%", Clause.andWhereNull "c"] := by
  obtain ⟨q', h1, h2, _, _, _⟩ := applyQueryFilters_spec emptyQuery
      [("a", JValue.num 5), ("b", JValue.str "x"), ("c", JValue.null)] tableC2 (by decide)
  refine ⟨q', h1, ?_⟩
  rw [h2]
  decide

/-- C9 counterexample: an unknown filter key makes `applyQueryFilters`
throw the untyped JavaScript `TypeError` produced by reading `.type` of
`undefined` — not a typed `InvalidFilter` error with HTTP status 400. -/
theorem applyQueryFilters_unknown_counterexample :
    applyQueryFilters emptyQuery [("a", JValue.num 1), ("bogus", JValue.num 2)] tableC2 =
      Except.error (QueryError.jsTypeError "Cannot read property type of undefined") := by
  rfl

theorem applyQueryFiltersGo_unknown (T : ITableInfo) (key : String) (v : JValue)
    (post : List (String × JValue)) (hkey : objGet (getColumnsByName T) key = none) :
    ∀ (pre : List (String × JValue)) (q : Query) (idx : Nat),
      (∀ p ∈ pre, (objGet (getColumnsByName T) p.1).isSome) →
      applyQueryFiltersGo (getColumnsByName T) q idx (pre ++ (key, v) :: post) =
        Except.error (QueryError.jsTypeError "Cannot read property type of undefined") := by
  intro pre
  induction pre with
  | nil => intro q idx _; simp [applyQueryFiltersGo, hkey]
  | cons p pre ih =>
      intro q idx h
      obtain ⟨kp, vp⟩ := p
      obtain ⟨col, hcol⟩ := Option.isSome_iff_exists.mp (h (kp, vp) (by simp))
      simp only [List.cons_append, applyQueryFiltersGo, hcol]
      exact ih _ _ (fun p hp => h p (by simp [hp]))

/-- C9 (amended): when the filter map contains a key that is not a
declared column (all keys before it being declared), `applyQueryFilters`
fails upon reaching that entry, but with an untyped JavaScript `TypeError`
rather than a typed `InvalidFilter` error kind with HTTP status 400. -/
theorem applyQueryFilters_unknown_spec (q : Query) (pre : List (String × JValue))
    (key : String) (v : JValue) (post : List (String × JValue)) (T : ITableInfo)
    (hpre : ∀ p ∈ pre, ∃ c ∈ T.columns, c.name = p.1)
    (hkey : ∀ c ∈ T.columns, c.name ≠ key) :
    applyQueryFilters q (pre ++ (key, v) :: post) T =
      Except.error (QueryError.jsTypeError "Cannot read property type of undefined") := by
  have hk : objGet (getColumnsByName T) key = none := by
    rcases ho : objGet (getColumnsByName T) key with _ | c
    · rfl
    · obtain ⟨c', hc', hn⟩ :=
        (objGet_getColumnsByName_isSome T key).mp (by simp [ho])
      exact absurd hn (hkey c' hc')
  exact applyQueryFiltersGo_unknown T key v post hk pre q 0
    (fun p hp => (objGet_getColumnsByName_isSome T p.1).mpr (hpre p hp))

/-- Witness for the amended C9 statement at a concrete input. -/
theorem applyQueryFilters_unknown_spec_witness :
    applyQueryFilters emptyQuery
        [("a", JValue.num 1), ("b", JValue.str "z"), ("ghost", JValue.null),
         ("c", JValue.null)] tableC2 =
      Except.error (QueryError.jsTypeError "Cannot read property type of undefined") :=
  applyQueryFilters_unknown_spec emptyQuery
    [("a", JValue.num 1), ("b", JValue.str "z")] "ghost" JValue.null
    [("c", JValue.null)] tableC2 (by decide) (by decide)

/-- The names declared by a primary-key definition. -/
def pkNames : PKDef → List String
  | .single s => [s]
  | .many l => l

/-- The declared key cardinality: 1 for a string key, the length for a
composite key. -/
def pkCardinality : PKDef → Nat
  | .single _ => 1
  | .many l => l.length

def pkIsString : PKDef → Bool
  | .single _ => true
  | .many _ => false

/-- The per-key loop of `applyPKFilters`: validates each submitted key
against the declared primary key (throwing HTTP 412 on an unknown key) and
attaches an exact-match clause for `int(11)` columns, else a
`'%value%'` pattern clause; the first key plainly, later keys AND-chained. -/
def applyPKFiltersGo (columnsByName : List (String × IColumnInfo)) (pk : PKDef)
    (QUERY : Query) (idx : Nat) : List (String × JValue) → Except QueryError Query
  | [] => Except.ok QUERY
  | (k, v) :: rest =>
      if pkDeclaresB pk k = false then
        Except.error (QueryError.httpException 412 ("Primary key " ++ k ++ " missing on table"))
      else
        match objGet columnsByName k with
        | none => Except.error (QueryError.jsTypeError "Cannot read property type of undefined")
        | some col =>
            applyPKFiltersGo columnsByName pk
              (QUERY.add
                (if col.type == "int(11)" then
                  if idx = 0 then Clause.whereEq k v else Clause.andWhereEq k v
                else
                  if idx = 0 then Clause.whereLike k (likePattern (jsToString v))
                  else Clause.andWhereLike k (likePattern (jsToString v))))
              (idx + 1) rest

/-- Embeds `applyPKFilters`: rejects a payload whose key count does not
match the declared key cardinality with HTTP 412, then runs the per-key
loop. -/
def applyPKFilters (QUERY : Query) (bodyPk : List (String × JValue))
    (TABLE_CONFIG : ITableInfo) : Except QueryError Query :=
  let PKS := bodyPk.map Prod.fst
  if pkIsString TABLE_CONFIG.pk && PKS.length != 1 then
    Except.error (QueryError.httpException 412 "Incorrect set of primary keys")
  else if (match TABLE_CONFIG.pk with
           | PKDef.many l => l.length != PKS.length
           | PKDef.single _ => false) then
    Except.error (QueryError.httpException 412 "Incorrect set of primary keys")
  else
    applyPKFiltersGo (getColumnsByName TABLE_CONFIG) TABLE_CONFIG.pk QUERY 0 bodyPk

/-- Spec-side clause list for a valid primary-key payload: exact match for
`int(11)` columns, substring pattern for the rest, in payload order. -/
def emittedPKClauses (T : ITableInfo) : Nat → List (String × JValue) → List Clause
  | _, [] => []
  | idx, (k, v) :: rest =>
      (if columnTypeOf T k == "int(11)" then
        if idx = 0 then Clause.whereEq k v else Clause.andWhereEq k v
      else
        if idx = 0 then Clause.whereLike k (likePattern (jsToString v))
        else Clause.andWhereLike k (likePattern (jsToString v))) :: emittedPKClauses T (idx + 1) rest

theorem applyPKFiltersGo_ok (T : ITableInfo) :
    ∀ (fs : List (String × JValue)) (q : Query) (idx : Nat),
      (∀ p ∈ fs, pkDeclaresB T.pk p.1 = true) →
      (∀ k ∈ pkNames T.pk, ∃ c ∈ T.columns, c.name = k) →
      ∃ q', applyPKFiltersGo (getColumnsByName T) T.pk q idx fs = Except.ok q' ∧
        q'.clauses = q.clauses ++ emittedPKClauses T idx fs ∧
        q'.off = q.off ∧ q'.lim = q.lim := by
  intro fs
  induction fs with
  | nil => intro q idx _ _; exact ⟨q, rfl, by simp [emittedPKClauses], rfl, rfl⟩
  | cons p rest ih =>
      intro q idx h hwf
      obtain ⟨k, v⟩ := p
      have hvalid : pkDeclaresB T.pk k = true := h (k, v) (by simp)
      have hdecl : ∃ c ∈ T.columns, c.name = k := by
        apply hwf
        cases hp : T.pk with
        | single s =>
            rw [hp] at hvalid
            simp only [pkDeclaresB] at hvalid
            simp [pkNames, eq_of_beq hvalid]
        | many l =>
            rw [hp] at hvalid
            simp only [pkDeclaresB] at hvalid
            simpa [pkNames] using hvalid
      obtain ⟨col, hcol⟩ := Option.isSome_iff_exists.mp
        ((objGet_getColumnsByName_isSome T k).mpr hdecl)
      obtain ⟨q', hgo, hcl, hoff, hlim⟩ :=
        ih (q.add
            (if col.type == "int(11)" then
              if idx = 0 then Clause.whereEq k v else Clause.andWhereEq k v
            else
              if idx = 0 then Clause.whereLike k (likePattern (jsToString v))
              else Clause.andWhereLike k (likePattern (jsToString v))))
          (idx + 1) (fun p hp => h p (by simp [hp])) hwf
      refine ⟨q', ?_, ?_, ?_, ?_⟩
      · simpa [applyPKFiltersGo, hvalid, hcol] using hgo
      · rw [hcl]
        have htype : columnTypeOf T k = col.type := by simp [columnTypeOf, hcol]
        simp [emittedPKClauses, Query.add, htype]
      · simpa [Query.add] using hoff
      · simpa [Query.add] using hlim

theorem applyPKFiltersGo_error (T : ITableInfo) :
    ∀ (fs : List (String × JValue)) (q : Query) (idx : Nat),
      (∀ k ∈ pkNames T.pk, ∃ c ∈ T.columns, c.name = k) →
      (∃ p ∈ fs, pkDeclaresB T.pk p.1 = false) →
      ∃ msg, applyPKFiltersGo (getColumnsByName T) T.pk q idx fs =
        Except.error (QueryError.httpException 412 msg) := by
  intro fs
  induction fs with
  | nil => intro q idx _ h; simp at h
  | cons p rest ih =>
      intro q idx hwf h
      obtain ⟨k, v⟩ := p
      by_cases hk : pkDeclaresB T.pk k = false
      · exact ⟨"Primary key " ++ k ++ " missing on table", by simp [applyPKFiltersGo, hk]⟩
      · have hvalid : pkDeclaresB T.pk k = true := by simpa using hk
        have hrest : ∃ p ∈ rest, pkDeclaresB T.pk p.1 = false := by
          rcases h with ⟨p', hp', hfalse⟩
          rcases List.mem_cons.mp hp' with hh | hh
          · subst hh
            exact absurd hfalse hk
          · exact ⟨p', hh, hfalse⟩
        have hdecl : ∃ c ∈ T.columns, c.name = k := by
          apply hwf
          cases hp : T.pk with
          | single s =>
              rw [hp] at hvalid
              simp only [pkDeclaresB] at hvalid
              simp [pkNames, eq_of_beq hvalid]
          | many l =>
              rw [hp] at hvalid
              simp only [pkDeclaresB] at hvalid
              simpa [pkNames] using hvalid
        obtain ⟨col, hcol⟩ := Option.isSome_iff_exists.mp
          ((objGet_getColumnsByName_isSome T k).mpr hdecl)
        obtain ⟨msg, hmsg⟩ := ih _ (idx + 1) hwf hrest
        exact ⟨msg, by simpa [applyPKFiltersGo, hvalid, hcol] using hmsg⟩

theorem applyPKFilters_eq_go (q : Query) (bodyPk : List (String × JValue))
    (T : ITableInfo) (hlen : bodyPk.length = pkCardinality T.pk) :
    applyPKFilters q bodyPk T =
      applyPKFiltersGo (getColumnsByName T) T.pk q 0 bodyPk := by
  cases hp : T.pk with
  | single s =>
      rw [hp] at hlen
      simp only [pkCardinality] at hlen
      simp [applyPKFilters, hp, pkIsString, hlen]
  | many l =>
      rw [hp] at hlen
      simp only [pkCardinality] at hlen
      simp [applyPKFilters, hp, pkIsString, hlen]

/-- C3: `applyPKFilters` fails with HTTP status 412 (the source's
`InvalidPrimaryKey` condition) exactly when the payload's key count
differs from the declared key cardinality (1 for a string key, the list
length for a composite key) or some payload key is not among the declared
primary-key columns; otherwise it succeeds and attaches, in payload order,
an exact-match clause for `int(11)` columns and a substring-pattern clause
for every other column type, the first column unprefixed and the remaining
columns AND-chained.  (Hypothesis: each declared key name is an actual
column of the table.) -/
theorem applyPKFilters_spec (q : Query) (bodyPk : List (String × JValue)) (T : ITableInfo)
    (hwf : ∀ k ∈ pkNames T.pk, ∃ c ∈ T.columns, c.name = k) :
    ((∃ msg, applyPKFilters q bodyPk T = Except.error (QueryError.httpException 412 msg)) ↔
      (bodyPk.length ≠ pkCardinality T.pk ∨ ∃ p ∈ bodyPk, pkDeclaresB T.pk p.1 = false)) ∧
    ((bodyPk.length = pkCardinality T.pk ∧ ∀ p ∈ bodyPk, pkDeclaresB T.pk p.1 = true) →
      ∃ q', applyPKFilters q bodyPk T = Except.ok q' ∧
        q'.clauses = q.clauses ++ emittedPKClauses T 0 bodyPk ∧
        q'.off = q.off ∧ q'.lim = q.lim) := by
  have hok : (bodyPk.length = pkCardinality T.pk ∧
      ∀ p ∈ bodyPk, pkDeclaresB T.pk p.1 = true) →
      ∃ q', applyPKFilters q bodyPk T = Except.ok q' ∧
        q'.clauses = q.clauses ++ emittedPKClauses T 0 bodyPk ∧
        q'.off = q.off ∧ q'.lim = q.lim := by
    rintro ⟨hlen, hall⟩
    rw [applyPKFilters_eq_go q bodyPk T hlen]
    exact applyPKFiltersGo_ok T bodyPk q 0 hall hwf
  have herrlen : bodyPk.length ≠ pkCardinality T.pk →
      ∃ msg, applyPKFilters q bodyPk T =
        Except.error (QueryError.httpException 412 msg) := by
    intro hlen
    refine ⟨"Incorrect set of primary keys", ?_⟩
    cases hp : T.pk with
    | single s =>
        rw [hp] at hlen
        simp only [pkCardinality] at hlen
        simp [applyPKFilters, hp, pkIsString, hlen]
    | many l =>
        rw [hp] at hlen
        simp only [pkCardinality] at hlen
        have hne : l.length ≠ bodyPk.length := Ne.symm hlen
        simp [applyPKFilters, hp, pkIsString, hne]
  refine ⟨⟨?_, ?_⟩, hok⟩
  · rintro ⟨msg, hmsg⟩
    by_contra hcon
    push_neg at hcon
    obtain ⟨hlen, hall⟩ := hcon
    obtain ⟨q', hq', _⟩ := hok ⟨hlen, fun p hp => by simpa using hall p hp⟩
    rw [hq'] at hmsg
    exact absurd hmsg (by simp)
  · rintro (hlen | hbad)
    · exact herrlen hlen
    · by_cases hlen : bodyPk.length = pkCardinality T.pk
      · rw [applyPKFilters_eq_go q bodyPk T hlen]
        exact applyPKFiltersGo_error T bodyPk q 0 hwf hbad
      · exact herrlen hlen

/-- A table declaring the composite primary key `[a, b]`. -/
def tableC3 : ITableInfo :=
  { name := "orders",
    columns :=
      [{ name := "a", type := "int(11)",
         visible := { main := true, detail := true }, relation := none },
       { name := "b", type := "varchar(255)",
         visible := { main := true, detail := true }, relation := none }],
    pk := PKDef.many ["a", "b"],
    chips := none,
    relations := none }

/-- Witness for C3: against `pk = [a, b]`, submitting `a` alone fails with
412, submitting `a, b, c` fails with 412, and submitting exactly `a, b`
succeeds with an exact match on the `int(11)` column AND-chained with a
substring pattern on the text column. -/
theorem applyPKFilters_spec_witness :
    (∃ msg, applyPKFilters emptyQuery [("a", JValue.num 1)] tableC3 =
        Except.error (QueryError.httpException 412 msg)) ∧
    (∃ msg, applyPKFilters emptyQuery
        [("a", JValue.num 1), ("b", JValue.num 2), ("c", JValue.num 3)] tableC3 =
        Except.error (QueryError.httpException 412 msg)) ∧
    (∃ q', applyPKFilters emptyQuery [("a", JValue.num 7), ("b", JValue.str "x")] tableC3 =
        Except.ok q' ∧
      q'.clauses = [Clause.whereEq "a" (JValue.num 7), Clause.andWhereLike "b" "%x%"]) := by
  have hwf : ∀ k ∈ pkNames tableC3.pk, ∃ c ∈ tableC3.columns, c.name = k := by decide
  refine ⟨?_, ?_, ?_⟩
  · exact (applyPKFilters_spec emptyQuery [("a", JValue.num 1)] tableC3 hwf).1.mpr
      (Or.inl (by decide))
  · exact (applyPKFilters_spec emptyQuery
      [("a", JValue.num 1), ("b", JValue.num 2), ("c", JValue.num 3)] tableC3 hwf).1.mpr
      (Or.inl (by decide))
  · obtain ⟨q', h1, h2, _, _⟩ := (applyPKFilters_spec emptyQuery
        [("a", JValue.num 7), ("b", JValue.str "x")] tableC3 hwf).2 ⟨by decide, by decide⟩
    refine ⟨q', h1, ?_⟩
    rw [h2]
    decide

/-- Embeds `TableController.getManyToManyRelationQueries`: for every
declared many-to-many relation, query the junction table for rows whose
foreign-key column equals the parent's local-id value, collect their
remote foreign-key values, and query the remote table with an IN on its
remote-id column over those values; each result is paired with the remote
table's name. -/
def getManyToManyRelationQueries (db : DataBase) (TABLE_CONFIG : ITableInfo)
    (parentData : Row) : List (String × List Row) :=
  match TABLE_CONFIG.relations with
  | none => []
  | some rels =>
      match rels.manyToMany with
      | none => []
      | some list =>
          list.map (fun relation =>
            let relationResult := (db relation.relationTable).filter
              (fun r => getVal r relation.foreignKey == getVal parentData relation.localId)
            let relationRemoteIds :=
              relationResult.map (fun r => getVal r relation.remoteForeignKey)
            (relation.remoteTable,
             (db relation.remoteTable).filter
               (fun r => relationRemoteIds.any
                 (fun v => getVal r relation.remoteId == v))))

/-- Embeds `TableController.mergeRelatedData`: attaches each relation
result to the parent row under its table name (many-to-one first, then
many-to-many). -/
def mergeRelatedData (results : Row) (manyToOneRelations : List (String × List Row))
    (manyToManyRelations : List (String × List Row)) : Row :=
  let results1 :=
    if manyToOneRelations.length ≠ 0 then
      manyToOneRelations.foldl
        (fun res p => objSet res p.1 (JValue.arr (p.2.map JValue.obj))) results
    else results
  if manyToManyRelations.length ≠ 0 then
    manyToManyRelations.foldl
      (fun res p => objSet res p.1 (JValue.arr (p.2.map JValue.obj))) results1
  else results1

/-- Spec-side description of the rows a many-to-many relation attaches: a
remote row is included iff some junction row links the parent's local-id
value to that row's remote-id value. -/
def expectedRemoteRows (db : DataBase) (parent : Row) (rel : IManyToManyRelation) :
    List Row :=
  (db rel.remoteTable).filter
    (fun r => (db rel.relationTable).any
      (fun j => getVal j rel.foreignKey == getVal parent rel.localId &&
        getVal r rel.remoteId == getVal j rel.remoteForeignKey))

theorem any_map_filter {α β : Type} [BEq β] (js : List α) (p : α → Bool) (f : α → β)
    (q : β → Bool) : ((js.filter p).map f).any q = js.any (fun j => p j && q (f j)) := by
  induction js with
  | nil => simp
  | cons j js ih => by_cases hp : p j <;> simp [hp, ih]

theorem objGet_fold_objSet_not_mem (F : (String × List Row) → JValue) :
    ∀ (l : List (String × List Row)) (r0 : Row) (k : String),
      (∀ p ∈ l, p.1 ≠ k) →
      objGet (l.foldl (fun res q => objSet res q.1 (F q)) r0) k = objGet r0 k := by
  intro l
  induction l with
  | nil => intro r0 k _; rfl
  | cons p l ih =>
      intro r0 k h
      rw [List.foldl_cons, ih _ _ (fun p hp => h p (by simp [hp]))]
      exact objGet_objSet_ne _ _ _ _ (h p (by simp))

theorem objGet_fold_objSet_mem (F : (String × List Row) → JValue) :
    ∀ (l : List (String × List Row)) (r0 : Row) (p : String × List Row),
      p ∈ l → (l.map Prod.fst).Nodup →
      objGet (l.foldl (fun res q => objSet res q.1 (F q)) r0) p.1 = some (F p) := by
  intro l
  induction l with
  | nil => intro r0 p h _; simp at h
  | cons q l ih =>
      intro r0 p hmem hnd
      rw [List.foldl_cons]
      rcases List.mem_cons.mp hmem with hh | hh
      · subst hh
        rw [objGet_fold_objSet_not_mem F l _ p.1 ?hne]
        · exact objGet_objSet_self _ _ _
        case hne =>
          intro p' hp'
          have := (List.nodup_cons.mp hnd).1
          intro hcon
          exact this (by rw [← hcon]; exact List.mem_map_of_mem _ hp')
      · exact ih _ p hh (List.nodup_cons.mp hnd).2

theorem mergeRelatedData_objGet_m2m (parent : Row) (m2o m2m : List (String × List Row))
    (p : String × List Row) (hmem : p ∈ m2m) (hnd : (m2m.map Prod.fst).Nodup) :
    objGet (mergeRelatedData parent m2o m2m) p.1 =
      some (JValue.arr (p.2.map JValue.obj)) := by
  have hlen : m2m.length ≠ 0 := by
    intro h
    rw [List.length_eq_zero] at h
    subst h
    simp at hmem
  simp only [mergeRelatedData]
  rw [if_pos hlen]
  exact objGet_fold_objSet_mem (fun q => JValue.arr (q.2.map JValue.obj)) m2m _ p hmem hnd

/-- C6: for every declared many-to-many relation of a parent row, the
merged result carries, under the remote table's name, exactly the remote
rows whose remote-id appears as the remote foreign key of a junction row
matching the parent's local-id value — i.e. the junction table is queried
by the parent's local id, the collected remote foreign keys drive an IN
query on the remote table, and the result is attached under the remote
table's name.  (Hypothesis: the declared remote table names are pairwise
distinct.) -/
theorem manyToMany_expansion (db : DataBase) (T : ITableInfo) (parent : Row)
    (m2o : List (String × List Row)) (rels : List IManyToManyRelation)
    (h1 : T.relations = some { manyToMany := some rels })
    (h2 : (rels.map (fun rel => rel.remoteTable)).Nodup) :
    ∀ rel ∈ rels,
      objGet (mergeRelatedData parent m2o (getManyToManyRelationQueries db T parent))
          rel.remoteTable =
        some (JValue.arr ((expectedRemoteRows db parent rel).map JValue.obj)) := by
  intro rel hrel
  have hq : getManyToManyRelationQueries db T parent =
      rels.map (fun relation =>
        (relation.remoteTable,
         (db relation.remoteTable).filter
           (fun r => (((db relation.relationTable).filter
               (fun j => getVal j relation.foreignKey ==
                 getVal parent relation.localId)).map
               (fun j => getVal j relation.remoteForeignKey)).any
             (fun v => getVal r relation.remoteId == v)))) := by
    simp [getManyToManyRelationQueries, h1]
  have hcode : (db rel.remoteTable).filter
      (fun r => (((db rel.relationTable).filter
          (fun j => getVal j rel.foreignKey == getVal parent rel.localId)).map
          (fun j => getVal j rel.remoteForeignKey)).any
        (fun v => getVal r rel.remoteId == v)) = expectedRemoteRows db parent rel := by
    unfold expectedRemoteRows
    apply List.filter_congr
    intro r _
    rw [any_map_filter]
  have hnonempty : rels.length ≠ 0 := by
    intro hcon
    rw [List.length_eq_zero] at hcon
    subst hcon
    simp at hrel
  have hmem : (rel.remoteTable,
      (db rel.remoteTable).filter
        (fun r => (((db rel.relationTable).filter
            (fun j => getVal j rel.foreignKey == getVal parent rel.localId)).map
            (fun j => getVal j rel.remoteForeignKey)).any
          (fun v => getVal r rel.remoteId == v))) ∈
      getManyToManyRelationQueries db T parent := by
    rw [hq]
    exact List.mem_map_of_mem _ hrel
  have hnd : ((getManyToManyRelationQueries db T parent).map Prod.fst).Nodup := by
    rw [hq, List.map_map]
    simpa [Function.comp] using h2
  have hres := mergeRelatedData_objGet_m2m parent m2o _ _ hmem hnd
  rw [show ((rel.remoteTable,
      (db rel.remoteTable).filter
        (fun r => (((db rel.relationTable).filter
            (fun j => getVal j rel.foreignKey == getVal parent rel.localId)).map
            (fun j => getVal j rel.remoteForeignKey)).any
          (fun v => getVal r rel.remoteId == v))) : String × List Row).2 = _ from rfl,
    hcode] at hres
  exact hres

/-- The junction and remote tables of the claim's example: product 1 is
linked to tags 9 and 10. -/
def dbC6 : DataBase := fun t =>
  if t = "product_tag" then
    [[("product_id", JValue.num 1), ("tag_id", JValue.num 9)],
     [("product_id", JValue.num 1), ("tag_id", JValue.num 10)],
     [("product_id", JValue.num 2), ("tag_id", JValue.num 9)]]
  else if t = "tags" then
    [[("id", JValue.num 9), ("name", JValue.str "new")],
     [("id", JValue.num 10), ("name", JValue.str "sale")]]
  else []

def relC6 : IManyToManyRelation :=
  { relationTable := "product_tag", foreignKey := "product_id", localId := "id",
    remoteTable := "tags", remoteId := "id", remoteForeignKey := "tag_id" }

def tableC6 : ITableInfo :=
  { name := "products",
    columns := [{ name := "id", type := "int(11)",
                  visible := { main := true, detail := true }, relation := none }],
    pk := PKDef.single "id",
    chips := none,
    relations := some { manyToMany := some [relC6] } }

/-- Witness for C6: parent row 1 ends up with both tag rows attached under
the remote table's name `tags`. -/
theorem manyToMany_expansion_witness :
    objGet (mergeRelatedData [("id", JValue.num 1)] []
        (getManyToManyRelationQueries dbC6 tableC6 [("id", JValue.num 1)])) "tags" =
      some (JValue.arr
        ((expectedRemoteRows dbC6 [("id", JValue.num 1)] relC6).map JValue.obj)) ∧
    expectedRemoteRows dbC6 [("id", JValue.num 1)] relC6 =
      [[("id", JValue.num 9), ("name", JValue.str "new")],
       [("id", JValue.num 10), ("name", JValue.str "sale")]] := by
  constructor
  · exact manyToMany_expansion dbC6 tableC6 [("id", JValue.num 1)] [] [relC6]
      rfl (by simp) relC6 (by simp)
  · rfl

/-- The per-related-table accumulator of `addVerboseRelatedData`: the set
of foreign-key values seen, the related key and display columns, and the
column of the main table the values came from. -/
structure IToRequestItem where
  values : List JValue
  key : String
  display : String
  foreignKeyColumn : String
  deriving DecidableEq

/-- Embeds `toRequestBuilder`. -/
def toRequestBuilder (relation : IColumnRelation) (columnName : String) : IToRequestItem :=
  { values := [], key := relation.key, display := relation.display,
    foreignKeyColumn := columnName }

/-- JavaScript `Set.add`: appends the value unless already present. -/
def setAdd (l : List JValue) (v : JValue) : List JValue :=
  if l.contains v then l else l ++ [v]

/-- Embeds `getColumnsWithRelations`. -/
def getColumnsWithRelations (TABLE_CONFIG : ITableInfo) : List IColumnInfo :=
  TABLE_CONFIG.columns.filter (fun column => column.relation.isSome)

/-- One step of the `toRequest` collection loop of `addVerboseRelatedData`:
create the entry for the column's related table when absent, then add the
row's foreign-key value to that entry's value set. -/
def addColumnToRequest (toRequest : List (String × IToRequestItem)) (row : Row)
    (column : IColumnInfo) : Except QueryError (List (String × IToRequestItem)) :=
  match column.relation with
  | none => Except.error (QueryError.httpException 500 "Column should have a relation")
  | some relation =>
      let tr1 :=
        if (objGet toRequest relation.table).isSome then toRequest
        else objSet toRequest relation.table (toRequestBuilder relation column.name)
      let item := (objGet tr1 relation.table).getD (toRequestBuilder relation column.name)
      Except.ok (objSet tr1 relation.table
        { item with values := setAdd item.values (getVal row column.name) })

/-- The double loop of `addVerboseRelatedData` over rows and relation
columns building the `toRequest` map. -/
def buildToRequest (results : List Row) (relCols : List IColumnInfo) :
    Except QueryError (List (String × IToRequestItem)) :=
  results.foldlM
    (fun tr row => relCols.foldlM (fun tr2 c => addColumnToRequest tr2 row c) tr) []

/-- The store query `DB.select(display, key).from(t).whereIn(key, values)`:
rows of `t` whose key is among the values, projected to the two columns. -/
def dbSelectWhereIn (db : DataBase) (t : String) (cols : List String)
    (whereCol : String) (vals : List JValue) : List Row :=
  ((db t).filter (fun r => vals.any (fun v => getVal r whereCol == v))).map
    (fun r => cols.map (fun c2 => (c2, getVal r c2)))

/-- The inner matcher of one requested table: JavaScript-object keyed by
the string coercion of each fetched key value, holding its display value
(later rows overwrite earlier ones). -/
def buildMatcherItem (db : DataBase) (tableName : String) (item : IToRequestItem) :
    List (String × JValue) :=
  (dbSelectWhereIn db tableName [item.display, item.key] item.key item.values).foldl
    (fun m r => objSet m (jsToString (getVal r item.key)) (getVal r item.display)) []

/-- The `MATCHER` object of `addVerboseRelatedData`, keyed by foreign-key
column; each relation query is recomputed per entry, which matches the
source's positional zip of `toRequest` with `relationResults`. -/
def buildMatcher (db : DataBase) (toRequest : List (String × IToRequestItem)) :
    List (String × List (String × JValue)) :=
  toRequest.foldl
    (fun M p => objSet M p.2.foreignKeyColumn (buildMatcherItem db p.1 p.2)) []

/-- The final in-place rewrite of one row:
`row[ROW_KEY] = MATCHER[ROW_KEY][row[ROW_KEY]]` for every requested
table. -/
def rewriteRow (MATCHER : List (String × List (String × JValue)))
    (toRequest : List (String × IToRequestItem)) (row : Row) : Row :=
  toRequest.foldl
    (fun r p =>
      objSet r p.2.foreignKeyColumn
        ((objGet ((objGet MATCHER p.2.foreignKeyColumn).getD [])
          (jsToString (getVal r p.2.foreignKeyColumn))).getD JValue.undef))
    row

/-- Embeds `TableController.addVerboseRelatedData`: collect the referenced
foreign-key values per related table, fetch `(display, key)` pairs with one
IN query per table, build the matcher, and rewrite every row's foreign-key
columns in place. -/
def addVerboseRelatedData (results : List Row) (TABLE_CONFIG : ITableInfo)
    (db : DataBase) : Except QueryError (List Row) :=
  match buildToRequest results (getColumnsWithRelations TABLE_CONFIG) with
  | Except.error e => Except.error e
  | Except.ok toRequest =>
      Except.ok (results.map (rewriteRow (buildMatcher db toRequest) toRequest))

/-- Spec-side value of a rewritten foreign-key cell: the display value of
the last related-table row whose key equals the foreign-key value, or
`undefined` when no row matches. -/
def displayOfRelated (db : DataBase) (rel : IColumnRelation) (v : JValue) : JValue :=
  match ((db rel.table).filter (fun r => getVal r rel.key == v)).getLast? with
  | some r => getVal r rel.display
  | none => JValue.undef

theorem objGet_eq_none_iff {α : Type} (l : List (String × α)) (k : String) :
    objGet l k = none ↔ ∀ p ∈ l, p.1 ≠ k := by
  induction l with
  | nil => simp [objGet]
  | cons p rest ih =>
      obtain ⟨k1, v1⟩ := p
      by_cases h : k1 = k <;> simp [objGet, h, ih]

theorem objGet_isSome_iff_mem_keys {α : Type} (l : List (String × α)) (k : String) :
    (objGet l k).isSome ↔ k ∈ l.map Prod.fst := by
  induction l with
  | nil => simp [objGet]
  | cons p rest ih =>
      obtain ⟨k1, v1⟩ := p
      by_cases h : k1 = k
      · subst h
        simp [objGet]
      · simp only [objGet, if_neg h, List.map_cons, List.mem_cons]
        rw [ih]
        constructor
        · exact Or.inr
        · rintro (hh | hh)
          · exact absurd hh.symm h
          · exact hh

theorem objGet_mem_nodup {α : Type} (l : List (String × α)) (p : String × α)
    (hmem : p ∈ l) (hnd : (l.map Prod.fst).Nodup) : objGet l p.1 = some p.2 := by
  induction l with
  | nil => simp at hmem
  | cons q rest ih =>
      rcases List.mem_cons.mp hmem with hh | hh
      · subst hh
        simp [objGet]
      · have hne : q.1 ≠ p.1 := by
          intro hcon
          exact (List.nodup_cons.mp hnd).1
            (by rw [hcon]; exact List.mem_map_of_mem _ hh)
        simp only [objGet, if_neg hne]
        exact ih hh (List.nodup_cons.mp hnd).2

theorem objSet_append_self {α : Type} (l : List (String × α)) (k : String) (v v' : α)
    (h : ∀ p ∈ l, p.1 ≠ k) : objSet (l ++ [(k, v)]) k v' = l ++ [(k, v')] := by
  induction l with
  | nil => simp [objSet]
  | cons p rest ih =>
      have hp : p.1 ≠ k := h p (by simp)
      obtain ⟨k1, v1⟩ := p
      simp only [List.cons_append, objSet, if_neg hp, List.cons.injEq, true_and]
      exact ih (fun p hp' => h p (by simp [hp']))

/-- The related-table name of a relation column (empty when none). -/
def colRelTable (c : IColumnInfo) : String :=
  match c.relation with
  | some rel => rel.table
  | none => ""

/-- Key, display, and foreign-key-column shape of a `toRequest` entry. -/
def shapeOf (tr : List (String × IToRequestItem)) :
    List (String × String × String × String) :=
  tr.map (fun p => (p.1, p.2.key, p.2.display, p.2.foreignKeyColumn))

/-- The shape the entry of one relation column must have. -/
def colShape (c : IColumnInfo) : String × String × String × String :=
  match c.relation with
  | some rel => (rel.table, rel.key, rel.display, c.name)
  | none => ("", "", "", "")

/-- The value set recorded for a related table (empty when absent). -/
def valuesAt (tr : List (String × IToRequestItem)) (t : String) : List JValue :=
  match objGet tr t with
  | some item => item.values
  | none => []

/-- Pure version of `addColumnToRequest` (a column without a relation is
skipped; the effectful version throws instead and is never reached on the
filtered column list). -/
def addColumnToRequestP (toRequest : List (String × IToRequestItem)) (row : Row)
    (column : IColumnInfo) : List (String × IToRequestItem) :=
  match column.relation with
  | none => toRequest
  | some relation =>
      let tr1 :=
        if (objGet toRequest relation.table).isSome then toRequest
        else objSet toRequest relation.table (toRequestBuilder relation column.name)
      let item := (objGet tr1 relation.table).getD (toRequestBuilder relation column.name)
      objSet tr1 relation.table
        { item with values := setAdd item.values (getVal row column.name) }

/-- Processing one result row over all relation columns. -/
def rowStepP (relCols : List IColumnInfo) (tr : List (String × IToRequestItem))
    (row : Row) : List (String × IToRequestItem) :=
  relCols.foldl (fun tr2 c => addColumnToRequestP tr2 row c) tr

theorem addColumnToRequest_ok (tr : List (String × IToRequestItem)) (row : Row)
    (c : IColumnInfo) (h : c.relation.isSome) :
    addColumnToRequest tr row c = Except.ok (addColumnToRequestP tr row c) := by
  obtain ⟨rel, hrel⟩ := Option.isSome_iff_exists.mp h
  simp [addColumnToRequest, addColumnToRequestP, hrel]

theorem buildToRequest_ok (relCols : List IColumnInfo)
    (hrel : ∀ c ∈ relCols, c.relation.isSome) :
    ∀ (results : List Row) (tr : List (String × IToRequestItem)),
      results.foldlM
        (fun tr row => relCols.foldlM (fun tr2 c => addColumnToRequest tr2 row c) tr) tr =
      Except.ok (results.foldl (rowStepP relCols) tr) := by
  have hrow : ∀ (row : Row) (tr : List (String × IToRequestItem)),
      relCols.foldlM (fun tr2 c => addColumnToRequest tr2 row c) tr =
        Except.ok (rowStepP relCols tr row) := by
    intro row
    unfold rowStepP
    induction relCols with
    | nil => intro tr; rfl
    | cons c cs ih =>
        intro tr
        rw [List.foldlM_cons, addColumnToRequest_ok tr row c (hrel c (by simp))]
        exact ih (fun c' hc' => hrel c' (by simp [hc'])) (addColumnToRequestP tr row c)
  intro results
  induction results with
  | nil => intro tr; rfl
  | cons row rows ih =>
      intro tr
      rw [List.foldlM_cons, hrow row tr]
      exact ih (rowStepP relCols tr row)

theorem mem_setAdd_of_mem {l : List JValue} {x v : JValue} (h : x ∈ l) :
    x ∈ setAdd l v := by
  unfold setAdd
  by_cases hc : v ∈ l <;> simp [hc, h]

theorem mem_setAdd_self (l : List JValue) (v : JValue) : v ∈ setAdd l v := by
  unfold setAdd
  by_cases hc : v ∈ l <;> simp [hc]

theorem addColumnToRequestP_frame (tr : List (String × IToRequestItem)) (row : Row)
    (c : IColumnInfo) (t : String) (h : colRelTable c ≠ t) :
    objGet (addColumnToRequestP tr row c) t = objGet tr t := by
  cases hrel : c.relation with
  | none => simp [addColumnToRequestP, hrel]
  | some rel =>
      have ht : rel.table ≠ t := by simpa [colRelTable, hrel] using h
      simp only [addColumnToRequestP, hrel]
      by_cases hp : (objGet tr rel.table).isSome
      · simp only [if_pos hp]
        exact objGet_objSet_ne _ _ _ _ ht
      · simp only [if_neg hp]
        rw [objGet_objSet_ne _ _ _ _ ht, objGet_objSet_ne _ _ _ _ ht]

theorem addColumnToRequestP_absent (tr : List (String × IToRequestItem)) (row : Row)
    (c : IColumnInfo) (rel : IColumnRelation) (hrel : c.relation = some rel)
    (habs : objGet tr rel.table = none) :
    addColumnToRequestP tr row c =
      tr ++ [(rel.table,
        { values := [getVal row c.name], key := rel.key, display := rel.display,
          foreignKeyColumn := c.name })] := by
  have hkeys : ∀ p ∈ tr, p.1 ≠ rel.table := (objGet_eq_none_iff tr rel.table).mp habs
  simp only [addColumnToRequestP, hrel, habs, Option.isSome_none, Bool.false_eq_true,
    if_false, objGet_objSet_self, Option.getD_some]
  rw [objSet_absent tr rel.table _ hkeys, objSet_append_self tr rel.table _ _ hkeys]
  simp [toRequestBuilder, setAdd]

theorem addColumnToRequestP_present (tr : List (String × IToRequestItem)) (row : Row)
    (c : IColumnInfo) (rel : IColumnRelation) (item : IToRequestItem)
    (hrel : c.relation = some rel) (hpres : objGet tr rel.table = some item) :
    addColumnToRequestP tr row c =
      objSet tr rel.table
        { item with values := setAdd item.values (getVal row c.name) } := by
  simp [addColumnToRequestP, hrel, hpres]

theorem shapeOf_objSet_values (tr : List (String × IToRequestItem)) (t : String)
    (item : IToRequestItem) (vals : List JValue) (hpres : objGet tr t = some item) :
    shapeOf (objSet tr t { item with values := vals }) = shapeOf tr := by
  induction tr with
  | nil => simp [objGet] at hpres
  | cons p rest ih =>
      obtain ⟨k1, v1⟩ := p
      by_cases h : k1 = t
      · subst h
        rw [show objGet ((k1, v1) :: rest) k1 = some v1 from by simp [objGet]] at hpres
        cases Option.some.inj hpres
        simp [objSet, shapeOf]
      · simp only [objGet, if_neg h] at hpres
        simp only [objSet, if_neg h, shapeOf, List.map_cons, List.cons.injEq, true_and]
        simpa [shapeOf] using ih hpres

theorem shapeOf_step (tr : List (String × IToRequestItem)) (row : Row) (c : IColumnInfo)
    (h : ∀ rel, c.relation = some rel → (objGet tr rel.table).isSome) :
    shapeOf (addColumnToRequestP tr row c) = shapeOf tr := by
  cases hrel : c.relation with
  | none => simp [addColumnToRequestP, hrel]
  | some rel =>
      obtain ⟨item, hitem⟩ := Option.isSome_iff_exists.mp (h rel hrel)
      rw [addColumnToRequestP_present tr row c rel item hrel hitem]
      exact shapeOf_objSet_values tr rel.table item _ hitem

theorem keys_of_shape_eq (tr tr' : List (String × IToRequestItem))
    (h : shapeOf tr' = shapeOf tr) (t : String) :
    (objGet tr' t).isSome ↔ (objGet tr t).isSome := by
  rw [objGet_isSome_iff_mem_keys, objGet_isSome_iff_mem_keys]
  have hk : tr'.map Prod.fst = tr.map Prod.fst := by
    have h1 := congrArg (List.map Prod.fst) h
    simpa [shapeOf, List.map_map, Function.comp] using h1
  rw [hk]

theorem valuesAt_step_mono (tr : List (String × IToRequestItem)) (row : Row)
    (c : IColumnInfo) (t : String) (x : JValue) (hx : x ∈ valuesAt tr t) :
    x ∈ valuesAt (addColumnToRequestP tr row c) t := by
  cases hrel : c.relation with
  | none => simpa [addColumnToRequestP, hrel] using hx
  | some rel =>
      by_cases ht : rel.table = t
      · subst ht
        cases hpres : objGet tr rel.table with
        | none => simp [valuesAt, hpres] at hx
        | some item =>
            rw [addColumnToRequestP_present tr row c rel item hrel hpres]
            have hx' : x ∈ item.values := by simpa [valuesAt, hpres] using hx
            simpa [valuesAt, objGet_objSet_self] using mem_setAdd_of_mem hx'
      · have hframe := addColumnToRequestP_frame tr row c t
          (by simp [colRelTable, hrel, ht])
        simpa [valuesAt, hframe] using hx

theorem valuesAt_step_self (tr : List (String × IToRequestItem)) (row : Row)
    (c : IColumnInfo) (rel : IColumnRelation) (hrel : c.relation = some rel)
    (hpres : (objGet tr rel.table).isSome) :
    getVal row c.name ∈ valuesAt (addColumnToRequestP tr row c) rel.table := by
  obtain ⟨item, hitem⟩ := Option.isSome_iff_exists.mp hpres
  rw [addColumnToRequestP_present tr row c rel item hrel hitem]
  simpa [valuesAt, objGet_objSet_self] using
    mem_setAdd_self item.values (getVal row c.name)

theorem rowStepP_invariant (row : Row) :
    ∀ (cs : List IColumnInfo) (tr : List (String × IToRequestItem)),
      (∀ c ∈ cs, ∀ rel, c.relation = some rel → (objGet tr rel.table).isSome) →
      shapeOf (rowStepP cs tr row) = shapeOf tr ∧
      (∀ t x, x ∈ valuesAt tr t → x ∈ valuesAt (rowStepP cs tr row) t) ∧
      (∀ c ∈ cs, ∀ rel, c.relation = some rel →
        getVal row c.name ∈ valuesAt (rowStepP cs tr row) rel.table) := by
  intro cs
  induction cs with
  | nil => intro tr _; exact ⟨rfl, fun t x hx => hx, by simp⟩
  | cons c cs ih =>
      intro tr hpres
      have hstep : shapeOf (addColumnToRequestP tr row c) = shapeOf tr :=
        shapeOf_step tr row c (fun rel hrel => hpres c (by simp) rel hrel)
      have hpres1 : ∀ c' ∈ cs, ∀ rel, c'.relation = some rel →
          (objGet (addColumnToRequestP tr row c) rel.table).isSome := by
        intro c' hc' rel hrel
        exact (keys_of_shape_eq tr _ hstep rel.table).mpr (hpres c' (by simp [hc']) rel hrel)
      obtain ⟨ihs, ihm, ihv⟩ := ih (addColumnToRequestP tr row c) hpres1
      have hfold : rowStepP (c :: cs) tr row =
          rowStepP cs (addColumnToRequestP tr row c) row := rfl
      refine ⟨by rw [hfold]; exact ihs.trans hstep, ?_, ?_⟩
      · intro t x hx
        rw [hfold]
        exact ihm t x (valuesAt_step_mono tr row c t x hx)
      · intro c' hc' rel hrel
        rw [hfold]
        rcases List.mem_cons.mp hc' with hh | hh
        · subst hh
          exact ihm _ _ (valuesAt_step_self tr row c' rel hrel
            (hpres c' (by simp) rel hrel))
        · exact ihv c' hh rel hrel

/-- The entry one relation column creates on the first row. -/
def firstItem (c : IColumnInfo) (row : Row) : IToRequestItem :=
  match c.relation with
  | some rel =>
      { values := [getVal row c.name], key := rel.key, display := rel.display,
        foreignKeyColumn := c.name }
  | none => { values := [], key := "", display := "", foreignKeyColumn := "" }

theorem rowStepP_fresh (row : Row) :
    ∀ (cs : List IColumnInfo) (tr : List (String × IToRequestItem)),
      (∀ c ∈ cs, c.relation.isSome) →
      ((tr.map Prod.fst ++ cs.map colRelTable).Nodup) →
      rowStepP cs tr row = tr ++ cs.map (fun c => (colRelTable c, firstItem c row)) := by
  intro cs
  induction cs with
  | nil => intro tr _ _; simp [rowStepP]
  | cons c cs ih =>
      intro tr hrel hnd
      obtain ⟨rel, hrelc⟩ := Option.isSome_iff_exists.mp (hrel c (by simp))
      have htbl : colRelTable c = rel.table := by simp [colRelTable, hrelc]
      have habs : objGet tr rel.table = none := by
        rw [objGet_eq_none_iff]
        intro p hp hcon
        have hdisj := (List.nodup_append.mp hnd).2.2
        exact hdisj (List.mem_map_of_mem _ hp)
          (by rw [List.map_cons, htbl, hcon]; exact List.mem_cons_self _ _)
      have hstep := addColumnToRequestP_absent tr row c rel hrelc habs
      generalize he1 : (⟨[getVal row c.name], rel.key, rel.display, c.name⟩ : IToRequestItem) = e1 at hstep
      have hnd2 : ((tr ++ [(rel.table, e1)]).map Prod.fst ++
          cs.map colRelTable).Nodup := by
        have h2 : (tr.map Prod.fst ++ [rel.table] ++ cs.map colRelTable).Nodup := by
          rw [← List.append_cons]
          simpa [htbl] using hnd
        simpa using h2
      have hih := ih (tr ++ [(rel.table, e1)])
        (fun c' hc' => hrel c' (by simp [hc'])) hnd2
      have hfold : rowStepP (c :: cs) tr row =
          rowStepP cs (addColumnToRequestP tr row c) row := rfl
      rw [hfold, hstep, hih]
      have hpair : (colRelTable c, firstItem c row) =
          ((rel.table, e1) : String × IToRequestItem) := by
        rw [← he1]
        simp [colRelTable, firstItem, hrelc]
      rw [List.map_cons, hpair]
      simp [List.append_assoc]

theorem present_of_shape (relCols : List IColumnInfo) (tr : List (String × IToRequestItem))
    (hshape : shapeOf tr = relCols.map colShape) (c : IColumnInfo) (hc : c ∈ relCols)
    (rel : IColumnRelation) (hrel : c.relation = some rel) :
    (objGet tr rel.table).isSome := by
  rw [objGet_isSome_iff_mem_keys]
  have hk : tr.map Prod.fst = relCols.map colRelTable := by
    calc tr.map Prod.fst = (shapeOf tr).map Prod.fst := by
          simp [shapeOf, List.map_map, Function.comp]
      _ = (relCols.map colShape).map Prod.fst := by rw [hshape]
      _ = relCols.map colRelTable := by
          rw [List.map_map]
          apply List.map_congr_left
          intro a _
          cases h : a.relation <;> simp [colShape, colRelTable, Function.comp, h]
  rw [hk]
  have htbl : rel.table = colRelTable c := by simp [colRelTable, hrel]
  rw [htbl]
  exact List.mem_map_of_mem _ hc

theorem foldl_rowStep_invariant (relCols : List IColumnInfo)
    (hrel : ∀ c ∈ relCols, c.relation.isSome) :
    ∀ (rows : List Row) (tr : List (String × IToRequestItem)),
      shapeOf tr = relCols.map colShape →
      shapeOf (rows.foldl (rowStepP relCols) tr) = relCols.map colShape ∧
      (∀ t x, x ∈ valuesAt tr t → x ∈ valuesAt (rows.foldl (rowStepP relCols) tr) t) ∧
      (∀ row ∈ rows, ∀ c ∈ relCols, ∀ rel, c.relation = some rel →
        getVal row c.name ∈ valuesAt (rows.foldl (rowStepP relCols) tr) rel.table) := by
  intro rows
  induction rows with
  | nil => intro tr h; exact ⟨h, fun t x hx => hx, by simp⟩
  | cons row rows ih =>
      intro tr hshape
      have hpres : ∀ c ∈ relCols, ∀ rel, c.relation = some rel →
          (objGet tr rel.table).isSome :=
        fun c hc rel hrelc => present_of_shape relCols tr hshape c hc rel hrelc
      obtain ⟨h1s, h1m, h1v⟩ := rowStepP_invariant row relCols tr hpres
      have hshape1 : shapeOf (rowStepP relCols tr row) = relCols.map colShape :=
        h1s.trans hshape
      obtain ⟨ihs, ihm, ihv⟩ := ih (rowStepP relCols tr row) hshape1
      refine ⟨ihs, fun t x hx => ihm t x (h1m t x hx), ?_⟩
      intro row' hrow' c hc rel hrelc
      rcases List.mem_cons.mp hrow' with hh | hh
      · subst hh
        exact ihm _ _ (h1v c hc rel hrelc)
      · exact ihv row' hh c hc rel hrelc

theorem buildToRequest_spec (T : ITableInfo) (results : List Row)
    (hTables : ((getColumnsWithRelations T).map colRelTable).Nodup) :
    ∃ tr, buildToRequest results (getColumnsWithRelations T) = Except.ok tr ∧
      (results = [] → tr = []) ∧
      (results ≠ [] →
        shapeOf tr = (getColumnsWithRelations T).map colShape ∧
        ∀ row ∈ results, ∀ c ∈ getColumnsWithRelations T, ∀ rel,
          c.relation = some rel → getVal row c.name ∈ valuesAt tr rel.table) := by
  have hrel : ∀ c ∈ getColumnsWithRelations T, c.relation.isSome := by
    intro c hc
    exact (List.mem_filter.mp hc).2
  refine ⟨results.foldl (rowStepP (getColumnsWithRelations T)) [],
    buildToRequest_ok _ hrel results [], ?_, ?_⟩
  · intro h
    subst h
    rfl
  · intro hne
    cases results with
    | nil => exact absurd rfl hne
    | cons r0 rest =>
        have h1 : rowStepP (getColumnsWithRelations T) [] r0 =
            (getColumnsWithRelations T).map (fun c => (colRelTable c, firstItem c r0)) := by
          simpa using rowStepP_fresh r0 (getColumnsWithRelations T) [] hrel
            (by simpa using hTables)
        have hshape1 : shapeOf (rowStepP (getColumnsWithRelations T) [] r0) =
            (getColumnsWithRelations T).map colShape := by
          rw [h1]
          unfold shapeOf
          rw [List.map_map]
          apply List.map_congr_left
          intro c hc
          obtain ⟨rel, hrelc⟩ := Option.isSome_iff_exists.mp (hrel c hc)
          simp [Function.comp, firstItem, colShape, colRelTable, hrelc]
        obtain ⟨hs, hm, hv⟩ := foldl_rowStep_invariant (getColumnsWithRelations T) hrel
          rest (rowStepP (getColumnsWithRelations T) [] r0) hshape1
        refine ⟨hs, ?_⟩
        intro row hrow c hc rel hrelc
        rcases List.mem_cons.mp hrow with hh | hh
        · subst hh
          apply hm
          have hmem : ((colRelTable c, firstItem c row) : String × IToRequestItem) ∈
              (getColumnsWithRelations T).map (fun c => (colRelTable c, firstItem c row)) :=
            List.mem_map_of_mem _ hc
          have hndk : (((getColumnsWithRelations T).map
              (fun c => (colRelTable c, firstItem c row))).map Prod.fst).Nodup := by
            rw [List.map_map]
            simpa [Function.comp] using hTables
          have hget := objGet_mem_nodup _ _ hmem hndk
          have htbl : rel.table = colRelTable c := by simp [colRelTable, hrelc]
          have hget2 : objGet ((getColumnsWithRelations T).map
              (fun c => (colRelTable c, firstItem c row))) (colRelTable c) =
              some (firstItem c row) := hget
          rw [h1, htbl]
          unfold valuesAt
          rw [hget2]
          simp [firstItem, hrelc]
        · exact hv row hh c hc rel hrelc

theorem objGet_keyfold_not_mem {α β : Type} (key : α → String) (F : α → β) :
    ∀ (l : List α) (m0 : List (String × β)) (k : String),
      (∀ p ∈ l, key p ≠ k) →
      objGet (l.foldl (fun m q => objSet m (key q) (F q)) m0) k = objGet m0 k := by
  intro l
  induction l with
  | nil => intro m0 k _; rfl
  | cons p l ih =>
      intro m0 k h
      rw [List.foldl_cons, ih _ _ (fun p hp => h p (by simp [hp]))]
      exact objGet_objSet_ne _ _ _ _ (h p (by simp))

theorem objGet_keyfold_mem {α β : Type} (key : α → String) (F : α → β) :
    ∀ (l : List α) (m0 : List (String × β)) (p : α),
      p ∈ l → (l.map key).Nodup →
      objGet (l.foldl (fun m q => objSet m (key q) (F q)) m0) (key p) = some (F p) := by
  intro l
  induction l with
  | nil => intro m0 p h _; simp at h
  | cons q l ih =>
      intro m0 p hmem hnd
      rw [List.foldl_cons]
      rcases List.mem_cons.mp hmem with hh | hh
      · subst hh
        rw [objGet_keyfold_not_mem key F l _ (key p) ?hne]
        · exact objGet_objSet_self _ _ _
        case hne =>
          intro p' hp' hcon
          exact (List.nodup_cons.mp hnd).1 (by rw [← hcon]; exact List.mem_map_of_mem _ hp')
      · exact ih _ p hh (List.nodup_cons.mp hnd).2

theorem objGet_foldl_last (g : Row → String) (h : Row → JValue) :
    ∀ (l : List Row) (m : List (String × JValue)) (s : String),
      objGet (l.foldl (fun m r => objSet m (g r) (h r)) m) s =
        match (l.filter (fun r => g r == s)).getLast? with
        | some r => some (h r)
        | none => objGet m s := by
  intro l
  induction l with
  | nil => intro m s; rfl
  | cons r l ih =>
      intro m s
      rw [List.foldl_cons, ih]
      by_cases hg : g r = s
      · have hfil : (r :: l).filter (fun r => g r == s) =
            r :: l.filter (fun r => g r == s) := by simp [hg]
        rw [hfil]
        cases hl : (l.filter (fun r => g r == s)).getLast? with
        | some rr => simp [List.getLast?_cons, hl]
        | none =>
            subst hg
            simp [List.getLast?_cons, hl, objGet_objSet_self]
      · have hfil : (r :: l).filter (fun r => g r == s) =
            l.filter (fun r => g r == s) := by simp [hg]
        rw [hfil]
        cases hl : (l.filter (fun r => g r == s)).getLast? with
        | some rr => rfl
        | none => simp [objGet_objSet_ne _ _ _ _ hg]

theorem rewriteRow_frame (M : List (String × List (String × JValue))) :
    ∀ (tr : List (String × IToRequestItem)) (row : Row) (k : String),
      (∀ p ∈ tr, p.2.foreignKeyColumn ≠ k) →
      getVal (rewriteRow M tr row) k = getVal row k := by
  intro tr
  induction tr with
  | nil => intro row k _; rfl
  | cons p tr ih =>
      intro row k hk
      have hstep : rewriteRow M (p :: tr) row =
          rewriteRow M tr (objSet row p.2.foreignKeyColumn
            ((objGet ((objGet M p.2.foreignKeyColumn).getD [])
              (jsToString (getVal row p.2.foreignKeyColumn))).getD JValue.undef)) := rfl
      rw [hstep, ih _ _ (fun p' hp' => hk p' (by simp [hp']))]
      exact getVal_objSet_ne _ _ _ _ (hk p (by simp))

theorem rewriteRow_at (M : List (String × List (String × JValue))) :
    ∀ (tr : List (String × IToRequestItem)) (row : Row) (e : String × IToRequestItem),
      e ∈ tr → (tr.map (fun p => p.2.foreignKeyColumn)).Nodup →
      getVal (rewriteRow M tr row) e.2.foreignKeyColumn =
        (objGet ((objGet M e.2.foreignKeyColumn).getD [])
          (jsToString (getVal row e.2.foreignKeyColumn))).getD JValue.undef := by
  intro tr
  induction tr with
  | nil => intro row e h _; simp at h
  | cons p tr ih =>
      intro row e hmem hnd
      have hstep : rewriteRow M (p :: tr) row =
          rewriteRow M tr (objSet row p.2.foreignKeyColumn
            ((objGet ((objGet M p.2.foreignKeyColumn).getD [])
              (jsToString (getVal row p.2.foreignKeyColumn))).getD JValue.undef)) := rfl
      rcases List.mem_cons.mp hmem with hh | hh
      · subst hh
        rw [hstep, rewriteRow_frame M tr _ _ ?hne]
        · exact getVal_objSet_self _ _ _
        case hne =>
          intro p' hp' hcon
          refine (List.nodup_cons.mp hnd).1 ?_
          simpa [← hcon] using
            List.mem_map_of_mem (fun p => p.2.foreignKeyColumn) hp'
      · have hne : p.2.foreignKeyColumn ≠ e.2.foreignKeyColumn := by
          intro hcon
          refine (List.nodup_cons.mp hnd).1 ?_
          simpa [hcon] using
            List.mem_map_of_mem (fun p => p.2.foreignKeyColumn) hh
        rw [hstep, ih _ e hh (List.nodup_cons.mp hnd).2,
          getVal_objSet_ne _ _ _ _ hne]

theorem getVal_project (r : Row) (d k x : String) (hx : x = d ∨ x = k) :
    getVal (([d, k] : List String).map (fun c2 => (c2, getVal r c2))) x = getVal r x := by
  by_cases hdx : d = x
  · subst hdx
    simp [getVal, objGet]
  · have hkx : k = x := by
      rcases hx with hh | hh
      · exact absurd hh.symm hdx
      · exact hh.symm
    subst hkx
    simp [getVal, objGet, hdx]

theorem buildMatcherItem_lookup (db : DataBase) (tbl : String) (item : IToRequestItem)
    (s : String) :
    objGet (buildMatcherItem db tbl item) s =
      (((db tbl).filter (fun r =>
          (jsToString (getVal r item.key) == s) &&
          item.values.any (fun v => getVal r item.key == v))).getLast?).map
        (fun r => getVal r item.display) := by
  unfold buildMatcherItem dbSelectWhereIn
  rw [objGet_foldl_last (fun r => jsToString (getVal r item.key))
    (fun r => getVal r item.display)]
  have hQ : (((db tbl).filter
        (fun r => item.values.any (fun v => getVal r item.key == v))).map
        (fun r => ([item.display, item.key] : List String).map
          (fun c2 => (c2, getVal r c2)))).filter
        (fun r => jsToString (getVal r item.key) == s) =
      ((db tbl).filter (fun r =>
          (jsToString (getVal r item.key) == s) &&
          item.values.any (fun v => getVal r item.key == v))).map
        (fun r => ([item.display, item.key] : List String).map
          (fun c2 => (c2, getVal r c2))) := by
    rw [List.filter_map, List.filter_filter]
    apply congrArg
    apply List.filter_congr
    intro r _
    simp only [Function.comp]
    rw [getVal_project r item.display item.key item.key (Or.inr rfl)]
  rw [hQ, List.getLast?_map]
  cases hl : ((db tbl).filter (fun r =>
      (jsToString (getVal r item.key) == s) &&
      item.values.any (fun v => getVal r item.key == v))).getLast? with
  | none => rfl
  | some r =>
      simp [getVal, objGet]

theorem keys_eq_of_shape (T : ITableInfo) (tr : List (String × IToRequestItem))
    (hshape : shapeOf tr = (getColumnsWithRelations T).map colShape) :
    tr.map Prod.fst = (getColumnsWithRelations T).map colRelTable := by
  calc tr.map Prod.fst = (shapeOf tr).map Prod.fst := by
        simp [shapeOf, List.map_map, Function.comp]
    _ = ((getColumnsWithRelations T).map colShape).map Prod.fst := by rw [hshape]
    _ = (getColumnsWithRelations T).map colRelTable := by
        rw [List.map_map]
        apply List.map_congr_left
        intro a _
        cases h : a.relation <;> simp [colShape, colRelTable, Function.comp, h]

theorem fkcs_eq_of_shape (T : ITableInfo) (tr : List (String × IToRequestItem))
    (hshape : shapeOf tr = (getColumnsWithRelations T).map colShape) :
    tr.map (fun p => p.2.foreignKeyColumn) =
      (getColumnsWithRelations T).map (fun c => c.name) := by
  calc tr.map (fun p => p.2.foreignKeyColumn)
      = (shapeOf tr).map (fun s => s.2.2.2) := by
        simp [shapeOf, List.map_map, Function.comp]
    _ = ((getColumnsWithRelations T).map colShape).map (fun s => s.2.2.2) := by rw [hshape]
    _ = (getColumnsWithRelations T).map (fun c => c.name) := by
        rw [List.map_map]
        apply List.map_congr_left
        intro a ha
        obtain ⟨rel, hrel⟩ := Option.isSome_iff_exists.mp (List.mem_filter.mp ha).2
        simp [colShape, Function.comp, hrel]

/-- C5 (amended): provided the relation columns target pairwise-distinct
related tables, have distinct names, and foreign-key/key values do not
collide under string coercion, `addVerboseRelatedData` rewrites, in every
row, every relation-bearing column from its foreign-key value to the
display value of the (last) related-table row whose key equals that value,
and to `undefined` when no related row matches. -/
theorem addVerboseRelatedData_spec (results : List Row) (T : ITableInfo) (db : DataBase)
    (hTables : ((getColumnsWithRelations T).map colRelTable).Nodup)
    (hNames : ((getColumnsWithRelations T).map (fun c => c.name)).Nodup)
    (hCoh : ∀ c ∈ getColumnsWithRelations T, ∀ rel, c.relation = some rel →
      ∀ r ∈ db rel.table, ∀ row ∈ results,
        jsToString (getVal r rel.key) = jsToString (getVal row c.name) →
        getVal r rel.key = getVal row c.name) :
    ∃ out, addVerboseRelatedData results T db = Except.ok out ∧
      out.length = results.length ∧
      ∀ i, i < results.length → ∀ c ∈ getColumnsWithRelations T, ∀ rel,
        c.relation = some rel →
        getVal (out.getD i []) c.name =
          displayOfRelated db rel (getVal (results.getD i []) c.name) := by
  obtain ⟨tr, htr, hempty, hfull⟩ := buildToRequest_spec T results hTables
  refine ⟨results.map (rewriteRow (buildMatcher db tr) tr),
    by unfold addVerboseRelatedData; rw [htr], by simp, ?_⟩
  intro i hi c hc rel hrelc
  have hne : results ≠ [] := by
    intro h
    subst h
    simp at hi
  obtain ⟨hshape, hvals⟩ := hfull hne
  have hrowmem : results.getD i [] ∈ results := by
    rw [List.getD_eq_getElem?_getD, List.getElem?_eq_getElem hi]
    simpa using List.getElem_mem hi
  have hout : (results.map (rewriteRow (buildMatcher db tr) tr)).getD i [] =
      rewriteRow (buildMatcher db tr) tr (results.getD i []) := by
    rw [List.getD_eq_getElem?_getD, List.getD_eq_getElem?_getD, List.getElem?_map,
      List.getElem?_eq_getElem hi]
    rfl
  rw [hout]
  have hcshape : colShape c ∈ shapeOf tr := by
    rw [hshape]
    exact List.mem_map_of_mem _ hc
  obtain ⟨e, hemem, heshape⟩ := List.mem_map.mp hcshape
  rw [colShape, hrelc] at heshape
  have he1 : e.1 = rel.table := congrArg (fun q => q.1) heshape
  have hekey : e.2.key = rel.key := congrArg (fun q => q.2.1) heshape
  have hedisp : e.2.display = rel.display := congrArg (fun q => q.2.2.1) heshape
  have hefkc : e.2.foreignKeyColumn = c.name := congrArg (fun q => q.2.2.2) heshape
  have hkeysnd : (tr.map Prod.fst).Nodup := by
    rw [keys_eq_of_shape T tr hshape]
    exact hTables
  have hfkcnd : (tr.map (fun p => p.2.foreignKeyColumn)).Nodup := by
    rw [fkcs_eq_of_shape T tr hshape]
    exact hNames
  have hrw := rewriteRow_at (buildMatcher db tr) tr (results.getD i []) e hemem hfkcnd
  rw [hefkc] at hrw
  rw [hrw]
  have hM : objGet (buildMatcher db tr) e.2.foreignKeyColumn =
      some (buildMatcherItem db e.1 e.2) := by
    unfold buildMatcher
    exact objGet_keyfold_mem (fun p => p.2.foreignKeyColumn)
      (fun p => buildMatcherItem db p.1 p.2) tr [] e hemem hfkcnd
  rw [hefkc] at hM
  rw [hM, Option.getD_some, buildMatcherItem_lookup]
  have hvmem : getVal (results.getD i []) c.name ∈ e.2.values := by
    have hv := hvals (results.getD i []) hrowmem c hc rel hrelc
    have hget : objGet tr rel.table = some e.2 := by
      rw [← he1]
      exact objGet_mem_nodup tr e hemem hkeysnd
    simpa [valuesAt, hget] using hv
  have hfil : (db e.1).filter (fun r =>
      (jsToString (getVal r e.2.key) == jsToString (getVal (results.getD i []) c.name)) &&
      e.2.values.any (fun v => getVal r e.2.key == v)) =
      (db rel.table).filter (fun r =>
        getVal r rel.key == getVal (results.getD i []) c.name) := by
    rw [he1]
    apply List.filter_congr
    intro r hr
    rw [hekey]
    rcases hstr : jsToString (getVal r rel.key) ==
        jsToString (getVal (results.getD i []) c.name) with _ | _
    · have hne2 : (getVal r rel.key == getVal (results.getD i []) c.name) = false := by
        rcases hbeq : getVal r rel.key == getVal (results.getD i []) c.name with _ | _
        · rfl
        · rw [eq_of_beq hbeq] at hstr
          simp at hstr
      rw [hne2]
      simp
    · have heq : getVal r rel.key = getVal (results.getD i []) c.name :=
        hCoh c hc rel hrelc r hr (results.getD i []) hrowmem (by simpa using hstr)
      rw [Bool.true_and]
      rcases hbeq : getVal r rel.key == getVal (results.getD i []) c.name with _ | _
      · rw [heq] at hbeq
        simp at hbeq
      · have hany : e.2.values.any (fun v => getVal r rel.key == v) = true := by
          rw [List.any_eq_true]
          exact ⟨getVal (results.getD i []) c.name, hvmem, by simp [heq]⟩
        rw [hany]
  rw [hfil]
  unfold displayOfRelated
  cases hlast : ((db rel.table).filter (fun r =>
      getVal r rel.key == getVal (results.getD i []) c.name)).getLast? with
  | none => simp [hedisp]
  | some r => simp [hedisp]

def relC5 : IColumnRelation := { table := "categories", key := "id", display := "name" }

/-- The relation column of the claim's example. -/
def colC5 : IColumnInfo :=
  { name := "categoryId", type := "int(11)",
    visible := { main := true, detail := true }, relation := some relC5 }

def tableC5 : ITableInfo :=
  { name := "products",
    columns :=
      [{ name := "id", type := "int(11)",
         visible := { main := true, detail := true }, relation := none },
       colC5],
    pk := PKDef.single "id", chips := none, relations := none }

def dbC5 : DataBase := fun t =>
  if t = "categories" then [[("id", JValue.num 5), ("name", JValue.str "Books")]] else []

/-- A table with two relation columns that target the same related table. -/
def tableC5x : ITableInfo :=
  { name := "audit",
    columns :=
      [{ name := "c1", type := "int(11)",
         visible := { main := true, detail := true },
         relation := some { table := "T", key := "id", display := "name" } },
       { name := "c2", type := "int(11)",
         visible := { main := true, detail := true },
         relation := some { table := "T", key := "id", display := "name" } }],
    pk := PKDef.single "c1", chips := none, relations := none }

def dbC5x : DataBase := fun t =>
  if t = "T" then
    [[("id", JValue.num 5), ("name", JValue.str "A")],
     [("id", JValue.num 6), ("name", JValue.str "B")]]
  else []

/-- C5 counterexample: when two relation columns target the same related
table, only the first is rewritten.  Column `c2` carries a relation
descriptor and its foreign-key value 6 has a matching related row with
display value `"B"`, yet after `addVerboseRelatedData` it still holds the
raw value 6 — contradicting the claim that EVERY relation-bearing column
is rewritten to its display value. -/
theorem addVerboseRelatedData_counterexample :
    addVerboseRelatedData [[("c1", JValue.num 5), ("c2", JValue.num 6)]] tableC5x dbC5x =
      Except.ok [[("c1", JValue.str "A"), ("c2", JValue.num 6)]] ∧
    displayOfRelated dbC5x { table := "T", key := "id", display := "name" }
      (JValue.num 6) = JValue.str "B" :=
  ⟨rfl, rfl⟩

/-- Witness for the amended C5 statement: the claim's own example — two
rows both referencing key 5 in `categoryId`, related row
`(id 5, name "Books")` — both end up with the display value. -/
theorem addVerboseRelatedData_spec_witness :
    (∃ out, addVerboseRelatedData
        [[("id", JValue.num 1), ("categoryId", JValue.num 5)],
         [("id", JValue.num 2), ("categoryId", JValue.num 5)]] tableC5 dbC5 =
        Except.ok out ∧
      out.length = ([[("id", JValue.num 1), ("categoryId", JValue.num 5)],
        [("id", JValue.num 2), ("categoryId", JValue.num 5)]] : List Row).length ∧
      ∀ i, i < ([[("id", JValue.num 1), ("categoryId", JValue.num 5)],
        [("id", JValue.num 2), ("categoryId", JValue.num 5)]] : List Row).length →
        ∀ c ∈ getColumnsWithRelations tableC5, ∀ rel, c.relation = some rel →
        getVal (out.getD i []) c.name =
          displayOfRelated dbC5 rel
            (getVal (([[("id", JValue.num 1), ("categoryId", JValue.num 5)],
              [("id", JValue.num 2), ("categoryId", JValue.num 5)]] : List Row).getD i [])
              c.name)) ∧
    displayOfRelated dbC5 relC5 (JValue.num 5) = JValue.str "Books" := by
  constructor
  · apply addVerboseRelatedData_spec
    · decide
    · decide
    · intro c hc rel hrel r hr row hrow hstr
      have hcols : getColumnsWithRelations tableC5 = [colC5] := rfl
      rw [hcols] at hc
      have hc' : c = colC5 := by simpa using hc
      subst hc'
      have hrel' : rel = relC5 := by
        have hx : colC5.relation = some relC5 := rfl
        rw [hx] at hrel
        exact (Option.some.inj hrel).symm
      subst hrel'
      have hdb : dbC5 relC5.table =
          [[("id", JValue.num 5), ("name", JValue.str "Books")]] := rfl
      rw [hdb] at hr
      have hr' : r = [("id", JValue.num 5), ("name", JValue.str "Books")] := by
        simpa using hr
      subst hr'
      have hrow' : row = [("id", JValue.num 1), ("categoryId", JValue.num 5)] ∨
          row = [("id", JValue.num 2), ("categoryId", JValue.num 5)] := by
        simpa using hrow
      rcases hrow' with hh | hh <;> subst hh <;> rfl
  · rfl
